import Mathlib

/-!
Verification development for the 711cc C compiler (sott0n/711cc).

Each section shallowly embeds one part of the compiler's source and proves
properties stated in the design specification about it.  The embeddings are
translated from the C sources:

  * `Codegen`   — src/src/codegen.c (register-stack discipline, prologue,
                  `builtin_va_start`)
  * `Preprocess` — src/src/preprocess.c (hideset algorithm of Dave Prosser,
                  include-path search)
  * `Tokenize`  — src/src/tokenize.c (`read_int_literal`)
  * `Parse`     — src/src/parse.c (`struct_decl` layout, the constant
                  expression evaluator `eval`)
  * `TypeC`     — src/type.c of the in-tree bootstrap compiler
                  (`get_common_type`, `usual_arith_conv`)
-/

namespace Codegen

/-!
Embedding of the `top` register-stack accounting of src/src/codegen.c.

The code generator owns six general-purpose registers and six floating
registers used as an evaluation stack indexed by the single counter `top`
(`static int top;`).  The embedding tracks exactly the effect on `top` of
every `gen_expr` / `gen_addr` / `gen_stmt` case of codegen.c; the emitted
assembly text itself is abstracted away, since the claims under study are
about the counter.  A C `error_tok(...)` call aborts the process, which is
modelled by `Option.none`.
-/

/-- AST node of src/src/711cc.h, restricted to the fields the code emitter's
register accounting branches on.  Each constructor corresponds to one
`ND_...` node kind handled by `gen_expr` / `gen_stmt` in src/src/codegen.c.
`member` carries `member->is_bitfield` of its `Member`, `var` carries the
variable's name (the `ND_FUNCALL` case of `gen_expr` tests it against
"__builtin_va_start"), `cast` carries whether the destination type is
`TY_BOOL` (the one cast that touches `top`). -/
inductive Node where
  | num
  | var (name : String)
  | member (lhs : Node) (isBitfield : Bool)
  | deref (lhs : Node)
  | addr (lhs : Node)
  | assign (lhs rhs : Node)
  | stmtExpr (body : List Node)
  | nullExpr
  | comma (lhs rhs : Node)
  | cast (lhs : Node) (toBool : Bool)
  | cond (c thn els : Node)
  | not (lhs : Node)
  | bitnot (lhs : Node)
  | logand (lhs rhs : Node)
  | logor (lhs rhs : Node)
  | funcall (lhs : Node)
  | binary (lhs rhs : Node)
  | ifStmt (c : Node) (thn : Node) (els : Option Node)
  | forStmt (ini : Option Node) (c : Option Node) (inc : Option Node) (thn : Node)
  | doStmt (thn : Node) (c : Node)
  | switchStmt (c : Node) (thn : Node)
  | caseStmt (lhs : Node)
  | block (body : List Node)
  | breakStmt
  | continueStmt
  | gotoStmt
  | labelStmt (lhs : Node)
  | ret (lhs : Option Node)
  | exprStmt (lhs : Node)
  deriving Repr

/-- `load` (codegen.c): loads through `reg(top-1)`; never changes `top`. -/
def load (t : Int) : Int := t

/-- `store` (codegen.c): stores `reg(top-2)` through `reg(top-1)` and ends
with `top--`. -/
def store (t : Int) : Int := t - 1

/-- `cmp_zero` (codegen.c): compares `reg(--top)` (or `freg(--top)`) with
zero, decrementing `top` once in every branch. -/
def cmpZero (t : Int) : Int := t - 1

/-- `cast` (codegen.c): of all the conversion branches only the
`to->kind == TY_BOOL` one touches `top` (`cmp_zero(from); ...; top++;`). -/
def castTop (toBool : Bool) (t : Int) : Int :=
  if toBool then cmpZero t + 1 else t

/-- `builtin_va_start` (codegen.c): emits the four `va_list` stores and ends
with `top++`. -/
def builtinVaStartTop (t : Int) : Int := t + 1

/-- The test `node->lhs->kind == ND_MEMBER && node->lhs->member->is_bitfield`
of the `ND_ASSIGN` case of `gen_expr`. -/
def isBitfieldMember : Node → Bool
  | .member _ bf => bf
  | _ => false

/-- The test `node->lhs->kind == ND_VAR &&
!strcmp(node->lhs->var->name, "__builtin_va_start")` of the `ND_FUNCALL`
case of `gen_expr`. -/
def isVaStartVar : Node → Bool
  | .var s => s = "__builtin_va_start"
  | _ => false

mutual

/-- `gen_addr` of src/src/codegen.c, tracking `top`.  The `ND_VAR` case ends
in `reg(top++)` in each of its four addressing branches; `ND_MEMBER` recurses
on `node->lhs` and then adds the member offset in place; the final
`error_tok(node->tok, "not an lvalue")` is `none`. -/
def genAddr (brk cont : Bool) : Node → Int → Option Int
  | .var _, t => some (t + 1)
  | .deref lhs, t => genExpr brk cont lhs t
  | .comma lhs rhs, t =>
      (genExpr brk cont lhs t).bind (fun t1 => genAddr brk cont rhs (t1 - 1))
  | .member lhs _, t => genAddr brk cont lhs t
  | _, _ => none

/-- `gen_expr` of src/src/codegen.c, tracking `top`.  The `ND_VAR` and
`ND_MEMBER` cases call `gen_addr(node)` on the node itself; their `gen_addr`
cases are unfolded one step here (`ND_VAR`: `reg(top++)`; `ND_MEMBER`:
`gen_addr(node->lhs)` followed by an in-place `add`).  The bitfield
sign/zero-extension shifts of `ND_MEMBER` do not touch `top`.  Node kinds
not handled by the switch fall through to the binary-operator tail, which
for statement kinds dereferences null children; such inputs never reach
`gen_expr` and are modelled as `none`.  The type-based diagnostics of
`ND_ASSIGN` (array-typed assignment, assignment to const) abort before
`top` is touched and are not represented, as the embedding carries no
types. -/
def genExpr (brk cont : Bool) : Node → Int → Option Int
  | .num, t => some (t + 1)
  | .var _, t => some (load (t + 1))
  | .member lhs _, t => (genAddr brk cont lhs t).bind (fun t1 => some (load t1))
  | .deref lhs, t => (genExpr brk cont lhs t).bind (fun t1 => some (load t1))
  | .addr lhs, t => genAddr brk cont lhs t
  | .assign lhs rhs, t =>
      (genExpr brk cont rhs t).bind (fun t1 =>
        (genAddr brk cont lhs t1).bind (fun t2 =>
          -- read-modify-write merge for a bitfield lvalue: `top++`, `load`,
          -- mask/shift/or through `%rax`, then `top--`; finally `store`
          some (store (if isBitfieldMember lhs then load (t2 + 1) - 1 else t2))))
  | .stmtExpr body, t =>
      (genStmts brk cont body t).bind (fun t1 => some (t1 + 1))
  | .nullExpr, t => some (t + 1)
  | .comma lhs rhs, t =>
      (genExpr brk cont lhs t).bind (fun t1 => genExpr brk cont rhs (t1 - 1))
  | .cast lhs toBool, t =>
      (genExpr brk cont lhs t).bind (fun t1 => some (castTop toBool t1))
  | .cond c thn els, t =>
      (genExpr brk cont c t).bind (fun t1 =>
        (genExpr brk cont thn (cmpZero t1)).bind (fun t2 =>
          genExpr brk cont els (t2 - 1)))
  | .not lhs, t =>
      (genExpr brk cont lhs t).bind (fun t1 => some (cmpZero t1 + 1))
  | .bitnot lhs, t => genExpr brk cont lhs t
  | .logand lhs rhs, t =>
      (genExpr brk cont lhs t).bind (fun t1 =>
        (genExpr brk cont rhs (cmpZero t1)).bind (fun t2 =>
          some (cmpZero t2 + 1)))
  | .logor lhs rhs, t =>
      (genExpr brk cont lhs t).bind (fun t1 =>
        (genExpr brk cont rhs (cmpZero t1)).bind (fun t2 =>
          some (cmpZero t2 + 1)))
  | .funcall lhs, t =>
      if isVaStartVar lhs then some (builtinVaStartTop t)
      else
        -- spill caller-saved registers, evaluate the callee address, load
        -- arguments from their stack slots (no `top` effect),
        -- `call *reg(--top)`, restore, result into `reg(top++)`
        (genExpr brk cont lhs t).bind (fun t1 => some (t1 - 1 + 1))
  | .binary lhs rhs, t =>
      -- all ND_ADD..ND_SHR / comparison opcodes: emit both operands, then
      -- `top--`; `divmod` and the comparison `set`/`movzx` tails do not
      -- touch `top`
      (genExpr brk cont lhs t).bind (fun t1 =>
        (genExpr brk cont rhs t1).bind (fun t2 => some (t2 - 1)))
  | _, _ => none

/-- `gen_stmt` of src/src/codegen.c, tracking `top` together with whether a
break/continue label is in scope (`brknum` / `contnum` nonzero).  `ND_FOR`
and `ND_DO` set both and `ND_SWITCH` sets `brknum` before emitting any of
their children (the assignments precede the child `gen_expr`/`gen_stmt`
calls in the source), and the saved values are restored on exit, which the
functional style gives for free.  The final
`error_tok(node->tok, "invalid statement")` is `none`. -/
def genStmt (brk cont : Bool) : Node → Int → Option Int
  | .ifStmt c thn els, t =>
      (genExpr brk cont c t).bind (fun t1 =>
        (genStmt brk cont thn (cmpZero t1)).bind (fun t2 =>
          genStmtOpt brk cont els t2))
  | .forStmt ini c inc thn, t =>
      (genStmtOpt true true ini t).bind (fun t1 =>
        (genExprCmpOpt true true c t1).bind (fun t2 =>
          (genStmt true true thn t2).bind (fun t3 =>
            genExprDropOpt true true inc t3)))
  | .doStmt thn c, t =>
      (genStmt true true thn t).bind (fun t1 =>
        (genExpr true true c t1).bind (fun t2 => some (cmpZero t2)))
  | .switchStmt c thn, t =>
      -- the per-case compare/jump loop only reads `reg(top - 1)`
      (genExpr true cont c t).bind (fun t1 => genStmt true cont thn (t1 - 1))
  | .caseStmt lhs, t => genStmt brk cont lhs t
  | .block body, t => genStmts brk cont body t
  | .breakStmt, t => if brk then some t else none
  | .continueStmt, t => if cont then some t else none
  | .gotoStmt, t => some t
  | .labelStmt lhs, t => genStmt brk cont lhs t
  | .ret lhs, t => genExprDropOpt brk cont lhs t
  | .exprStmt lhs, t => (genExpr brk cont lhs t).bind (fun t1 => some (t1 - 1))
  | _, _ => none

/-- The `for (Node *n = node->body; n; n = n->next) gen_stmt(n);` loops of
the `ND_BLOCK` and `ND_STMT_EXPR` cases. -/
def genStmts (brk cont : Bool) : List Node → Int → Option Int
  | [], t => some t
  | n :: rest, t => (genStmt brk cont n t).bind (genStmts brk cont rest)

/-- An optional child statement: `if (node->...) gen_stmt(node->...);`
(the `else` branch of `ND_IF`, the init of `ND_FOR`). -/
def genStmtOpt (brk cont : Bool) : Option Node → Int → Option Int
  | some s, t => genStmt brk cont s t
  | none, t => some t

/-- An optional controlling expression:
`if (node->cond) { gen_expr(node->cond); cmp_zero(...); }` (`ND_FOR`). -/
def genExprCmpOpt (brk cont : Bool) : Option Node → Int → Option Int
  | some e, t => (genExpr brk cont e t).bind (fun t1 => some (cmpZero t1))
  | none, t => some t

/-- An optional discarded expression:
`if (node->...) { gen_expr(node->...); ... reg(--top) ... }` (the increment
of `ND_FOR`, the return value of `ND_RETURN`). -/
def genExprDropOpt (brk cont : Bool) : Option Node → Int → Option Int
  | some e, t => (genExpr brk cont e t).bind (fun t1 => some (t1 - 1))
  | none, t => some t

end

/-- `emit_text` of src/src/codegen.c, restricted to the body emission of one
function: `top` starts at 0 (it is a zero-initialised static and every
previous function restored it), `gen_stmt(fn->body)` runs with no enclosing
break/continue target, and then `assert(top == 0)` fires. -/
def emitTextBody (body : Node) : Option Int := genStmt false false body 0

/-- The twelve argument-register spills emitted by `emit_text` when
`fn->is_variadic` holds (src/src/codegen.c): each `(register, offset)` pair
is one `mov`/`movsd` to `offset(%rbp)`. -/
def varargRegSaveInstrs : List (String × Int) :=
  [ ("%rdi", -128), ("%rsi", -120), ("%rdx", -112), ("%rcx", -104),
    ("%r8", -96), ("%r9", -88),
    ("%xmm0", -80), ("%xmm1", -72), ("%xmm2", -64), ("%xmm3", -56),
    ("%xmm4", -48), ("%xmm5", -40) ]

/-- The register-save spills of the prologue of `emit_text`: emitted exactly
when the function is variadic. -/
def prologueRegSave (isVariadic : Bool) : List (String × Int) :=
  if isVariadic then varargRegSaveInstrs else []

/-- Each spill instruction stores 8 bytes (`mov` of a 64-bit register or
`movsd`), so the byte span of the save area is from the lowest offset to the
highest offset plus 8. -/
def regSaveAreaBytes : Int :=
  let offs := varargRegSaveInstrs.map Prod.snd
  (offs.foldl max (-128) + 8) - offs.foldl min (-128)

/-- Result of `builtin_va_start` (codegen.c): the two 4-byte offsets written
to `(%rax)` and `4(%rax)` and the %rbp-relative address stored as the
register save area pointer (`mov %rbp, 16(%rax); subq $128, 16(%rax)`). -/
structure VaStartResult where
  gpOffset : Int
  fpOffset : Int
  regSaveArea : Int
  deriving Repr, DecidableEq

/-- `builtin_va_start` of src/src/codegen.c.  `params` lists, for each named
parameter of the current function, whether `is_flonum(var->ty)` holds. -/
def builtinVaStart (params : List Bool) : VaStartResult :=
  let fp := params.countP (· = true)
  let gp := params.countP (· = false)
  { gpOffset := gp * 8, fpOffset := 48 + fp * 8, regSaveArea := -128 }

/-- Modelled from the spec: the register save area that the specification
describes for a variadic prologue — "spill the first six integer and first
eight floating argument registers to a 176-byte register save area".  The
floating spills of the System V layout are 16 bytes each, giving
6*8 + 8*16 = 176 bytes.  Used only to compare the claim against the code. -/
def specRegSave : List String :=
  [ "%rdi", "%rsi", "%rdx", "%rcx", "%r8", "%r9",
    "%xmm0", "%xmm1", "%xmm2", "%xmm3", "%xmm4", "%xmm5", "%xmm6", "%xmm7" ]

/-- Modelled from the spec: the byte size the specification states for the
register save area. -/
def specRegSaveAreaBytes : Int := 176

end Codegen

namespace Preprocess

/-!
Embedding of the macro-expansion core of src/src/preprocess.c: token
hidesets (`hideset_union`, `hideset_contains`, `hideset_intersection`,
`add_hideset`), macro lookup, argument collection, substitution and
`expand_macro` / `preprocess2`.

A token stream is a `List PToken`; the `TK_EOF` sentinel that terminates
every C token list is the end of the Lean list ( `new_eof` / the
`tok->kind != TK_EOF` loop bounds correspond to the `[]` case ).
`copy_token` is the identity, since the embedding is pure.  C's
`error_tok(...)` aborts the process and is modelled by a failing result.
The recursion `subst` → `preprocess2` (arguments are fully macro-expanded
before substitution) is made well-founded by a fuel parameter; running out
of fuel is a distinct failure, so every theorem about a successful run
speaks about exactly the code's behaviour.  Directive processing
(`#include`, `#define`, ..., reached through `is_hash`) is outside this
fragment and is mapped to a failing result, and the two handler-based
built-in macros `__FILE__` / `__LINE__` (which replace a single token and
never recurse) are not representable in the modelled macro table, so the
theorems below only cover runs in which they do not occur.
-/

/-- Token kinds of src/src/711cc.h that matter to macro expansion. -/
inductive TokKind where
  | ident
  | punct
  | num
  | str
  deriving Repr, DecidableEq

/-- A preprocessing token: kind, spelling (`loc`/`len`), hideset, and the
`at_bol` / `has_space` flags (src/src/711cc.h, `struct Token`). -/
structure PToken where
  kind : TokKind
  text : String
  hideset : List String
  atBol : Bool
  hasSpace : Bool
  deriving Repr, DecidableEq

/-- The payload of a `struct Macro`: object-like with a body, or
function-like with parameter names, a variadic flag and a body. -/
inductive MacroDef where
  | objlike (body : List PToken)
  | funclike (params : List String) (isVariadic : Bool) (body : List PToken)
  deriving Repr, DecidableEq

/-- One entry of the `macros` list (src/src/preprocess.c `struct Macro`).
`#undef` pushes an entry with `deleted` set. -/
structure MacroEntry where
  name : String
  mdef : MacroDef
  deleted : Bool
  deriving Repr, DecidableEq

/-- `hideset_contains` (preprocess.c): linear search comparing the full
spelling. -/
def hidesetContains (hs : List String) (s : String) : Bool :=
  hs.any (· = s)

/-- `hideset_union` (preprocess.c): copies `hs1` and hangs `hs2` off its
tail. -/
def hidesetUnion (hs1 hs2 : List String) : List String :=
  hs1 ++ hs2

/-- `hideset_intersection` (preprocess.c): the elements of `hs1` that are
contained in `hs2`, in order. -/
def hidesetIntersection (hs1 hs2 : List String) : List String :=
  hs1.filter (fun s => hidesetContains hs2 s)

/-- `add_hideset` (preprocess.c): copies the token list, unioning `hs` into
every copy's hideset. -/
def addHideset (ts : List PToken) (hs : List String) : List PToken :=
  ts.map (fun t => { t with hideset := hidesetUnion t.hideset hs })

/-- `find_macro` (preprocess.c): only identifiers are looked up; the first
entry with the token's spelling wins, and a `deleted` winner shadows older
definitions. -/
def findMacro (ms : List MacroEntry) (t : PToken) : Option MacroEntry :=
  if t.kind = .ident then
    match ms.find? (fun m => m.name = t.text) with
    | some m => if m.deleted then none else some m
    | none => none
  else none

/-- `is_hash` (preprocess.c): a `#` that is the first token on its line. -/
def isHash (t : PToken) : Bool :=
  t.atBol && t.text = "#"

/-- `equal(tok->next, "(")` where `tok->next` may be the EOF sentinel
(EOF never equals a punctuator). -/
def nextIsLParen : List PToken → Bool
  | lp :: _ => lp.text = "("
  | [] => false

/-- The copy loop of `join_tokens` (preprocess.c): `first` records whether
the cursor is still at the leading token (`t != tok`). -/
def joinTokensAux (first : Bool) : List PToken → String
  | [] => ""
  | t :: ts =>
      (if ¬first ∧ t.hasSpace then " " else "") ++ t.text ++ joinTokensAux false ts

/-- `join_tokens` (preprocess.c): concatenation of the spellings, with a
single space wherever a non-leading token has `has_space` set. -/
def joinTokens (ts : List PToken) : String :=
  joinTokensAux true ts

/-- `quote_string` (preprocess.c): wrap in double quotes, escaping `\` and
`"` with a backslash. -/
def quoteString (s : String) : String :=
  "\"" ++ String.mk (s.data.flatMap (fun c =>
    if c = '\\' ∨ c = '"' then ['\\', c] else [c])) ++ "\""

/-- `stringize` (preprocess.c): `join_tokens` of the argument, quoted and
re-tokenized into one fresh string token (fresh tokens from `tokenize` have
an empty hideset, `at_bol` set and `has_space` clear). -/
def stringize (arg : List PToken) : PToken :=
  { kind := .str, text := quoteString (joinTokens arg),
    hideset := [], atBol := true, hasSpace := false }

/-- Classification of a pasted spelling by `tokenize` (tokenize.c): an
identifier if it starts with a letter or underscore, a number if it starts
with a digit, otherwise a punctuator. -/
def classifyText (s : String) : TokKind :=
  match s.data with
  | c :: _ =>
      if c.isAlpha ∨ c = '_' then .ident
      else if c.isDigit then .num
      else .punct
  | [] => .punct

/-- `paste` (preprocess.c): concatenate the two spellings and re-tokenize.
The fresh token produced by `tokenize` carries an empty hideset.  The
"pasting forms an invalid token" check (more than one resulting token) is
abstracted away: the model always forms a single token of the pasted
spelling. -/
def paste (lhs rhs : PToken) : PToken :=
  { kind := classifyText (lhs.text ++ rhs.text), text := lhs.text ++ rhs.text,
    hideset := [], atBol := true, hasSpace := false }

/-- The `*cur = *paste(cur, r)` step of the `##` handling in `subst`
(preprocess.c): the cursor is the last token already emitted, and it is
overwritten by the pasted token.  At every call site the emitted list is
nonempty; the `[]` case is unreachable. -/
def fuseLast : List PToken → PToken → List PToken
  | [], _ => []
  | [x], r => [paste x r]
  | x :: y :: xs, r => x :: fuseLast (y :: xs) r

/-- `find_arg` (preprocess.c): look a token up among the collected macro
arguments by spelling. -/
def findArg (args : List (String × List PToken)) (t : PToken) :
    Option (List PToken) :=
  (args.find? (fun a => a.1 = t.text)).map Prod.snd

/-- `skip(tok, s)` (tokenize.c): demand that the next token spells `s` and
step over it; anything else is a fatal diagnostic. -/
def skipTok (s : String) : List PToken → Option (List PToken)
  | t :: rest => if t.text = s then some rest else none
  | [] => none

/-- `read_macro_arg_one` (preprocess.c): collect one argument up to an
unnested `)` (or, unless reading the variadic rest, an unnested `,`).
Parentheses nest via `level`; hitting EOF is a fatal diagnostic.  Returns
the collected tokens and the rest of the stream still headed by the
stopping token (`*rest = tok`). -/
def readMacroArgOne (readRest : Bool) : List PToken → Nat →
    Option (List PToken × List PToken)
  | [], _ => none
  | t :: rest, level =>
    if level = 0 ∧ t.text = ")" then some ([], t :: rest)
    else if level = 0 ∧ ¬readRest ∧ t.text = "," then some ([], t :: rest)
    else
      let level' :=
        if t.text = "(" then level + 1
        else if t.text = ")" then level - 1
        else level
      (readMacroArgOne readRest rest level').map (fun p => (t :: p.1, p.2))

/-- The named-parameter loop of `read_macro_args` (preprocess.c): every
parameter but the first is preceded by a `,`. -/
def readMacroArgsNamed (isFirst : Bool) :
    List String → List PToken →
    Option (List (String × List PToken) × List PToken)
  | [], rest => some ([], rest)
  | p :: ps, rest => do
      let rest1 ← if isFirst then pure rest else skipTok "," rest
      let (arg, rest2) ← readMacroArgOne false rest1 0
      let (args, rest3) ← readMacroArgsNamed false ps rest2
      pure ((p, arg) :: args, rest3)

/-- `read_macro_args` (preprocess.c), starting just after the opening `(`
of the invocation: the named parameters, the `__VA_ARGS__` rest argument of
a variadic macro (preceded by `,` exactly when there are named parameters),
and the closing `)` check (`skip(tok, ")")`, with `*rest` left pointing at
the `)` itself, which `expand_macro` uses as `rparen`).  Returns the
arguments, the closing-parenthesis token and the stream after it. -/
def readMacroArgs (params : List String) (isVariadic : Bool)
    (rest0 : List PToken) :
    Option (List (String × List PToken) × PToken × List PToken) := do
  let (args, rest1) ← readMacroArgsNamed true params rest0
  let (args2, rest2) ←
    if isVariadic then do
      let r ← if params.isEmpty then pure rest1 else skipTok "," rest1
      let (arg, r2) ← readMacroArgOne true r 0
      pure (args ++ [("__VA_ARGS__", arg)], r2)
    else pure (args, rest1)
  match rest2 with
  | r :: rest3 => if r.text = ")" then some (args2, r, rest3) else none
  | [] => none

/-- Result of `expand_macro`: the C function returns `false` (leave the
token alone), or `true` with the rewritten stream in `*rest`; a fatal
diagnostic (or, in the model, fuel exhaustion) is `fail`. -/
inductive ExpandResult where
  | expanded (ts : List PToken)
  | noExpand
  | fail
  deriving Repr, DecidableEq

mutual

/-- `preprocess2` of src/src/preprocess.c restricted to its macro-expansion
core: expand the head token if `expand_macro` succeeds and rescan its
output, otherwise pass the token through unchanged.  A directive line
(`is_hash`) is outside this fragment and fails.  `fuel` bounds the number
of steps and makes the rescanning loop recursion well-founded; running out
of fuel is a failure distinct from any source behaviour, so theorems about
successful runs speak exactly about the code. -/
def preprocess2 : Nat → List MacroEntry → List PToken → Option (List PToken)
  | _, _, [] => some []
  | 0, _, _ :: _ => none
  | f + 1, ms, t :: rest =>
      match expandMacro f ms (t :: rest) with
      | .expanded s => preprocess2 f ms s
      | .fail => none
      | .noExpand =>
          if isHash t then none
          else (preprocess2 f ms rest).map (t :: ·)

/-- `subst` of src/src/preprocess.c: replace parameters in a function-like
macro body by the collected arguments.  In order: the stringizing operator
`#`, the pasting operator `x##y` with its empty-argument corners, and the
remaining cases (`substTail`): a bare parameter, whose argument is fully
macro-expanded by `preprocess2` first, or a plain token. -/
def subst : Nat → List MacroEntry → List PToken →
    List (String × List PToken) → Option (List PToken)
  | _, _, [], _ => some []
  | 0, _, _ :: _, _ => none
  | f + 1, ms, t :: rest, args =>
    if t.text = "#" then
      -- `#` must be followed by a parameter; `find_arg` of the EOF sentinel
      -- or of a non-parameter is a fatal diagnostic
      match rest with
      | u :: rest1 =>
        match findArg args u with
        | some arg => (subst f ms rest1 args).map (stringize arg :: ·)
        | none => none
      | [] => none
    else
      match rest with
      | hh :: rest2 =>
        if hh.text = "##" then
          -- x##y: `y` is `tok->next->next`, possibly the EOF sentinel
          match rest2 with
          | y :: rest3 =>
            let lhs := findArg args t
            let rhs := findArg args y
            -- x##y becomes y if x is bound to the empty argument:
            -- the loop continues at `tok = y`
            if lhs = some [] then subst f ms (y :: rest3) args
            else
              let pre : List PToken := match lhs with
                | some l => l
                | none => [t]
              -- x##y becomes x if y is bound to the empty argument
              if rhs = some [] then
                (subst f ms rest3 args).map (pre ++ ·)
              else
                match rhs with
                | some rarg =>
                    match rarg with
                    | r1 :: rs =>
                        (subst f ms rest3 args).map
                          (fun s => fuseLast pre r1 ++ rs ++ s)
                    | [] => none
                | none =>
                    (subst f ms rest3 args).map (fun s => fuseLast pre y ++ s)
          | [] =>
            -- `y = tok->next->next` is the EOF sentinel (the body ends in
            -- `##`).  If x is bound to the empty argument the loop continues
            -- at the sentinel and stops; otherwise the loop then steps to
            -- `y->next`, which is the null pointer after the sentinel —
            -- undefined behaviour in the source, modelled as failure.
            if findArg args t = some [] then some []
            else none
        else
          substTail f ms t (hh :: rest2) args
      | [] => substTail f ms t [] args

/-- The tail of the `subst` loop for a token not involved in `#`/`##`: a
parameter is replaced by its fully pre-expanded argument, any other token is
copied through. -/
def substTail : Nat → List MacroEntry → PToken → List PToken →
    List (String × List PToken) → Option (List PToken)
  | 0, _, _, _, _ => none
  | f + 1, ms, t, rest, args =>
    match findArg args t with
    | some arg =>
        (preprocess2 f ms arg).bind (fun e =>
          (subst f ms rest args).map (e ++ ·))
    | none => (subst f ms rest args).map (t :: ·)

/-- `expand_macro` of src/src/preprocess.c.  Refuses when the macro name is
in the token's hideset; expands an object-like macro body under
`T.hideset ∪ {M}`; treats a function-like macro name not followed by `(`
as a plain identifier; and expands a function-like invocation under
`(T.hideset ∩ rparen.hideset) ∪ {M}` after substituting the collected
arguments into the body. -/
def expandMacro : Nat → List MacroEntry → List PToken → ExpandResult
  | _, _, [] => .noExpand
  | f, ms, t :: rest =>
    if hidesetContains t.hideset t.text then .noExpand
    else
      match findMacro ms t with
      | none => .noExpand
      | some m =>
        match m.mdef with
        | .objlike body =>
            let hs := hidesetUnion t.hideset [m.name]
            .expanded (addHideset body hs ++ rest)
        | .funclike params isVariadic body =>
            if nextIsLParen rest then
              match rest with
              | _lp :: afterLp =>
                match readMacroArgs params isVariadic afterLp with
                | some (args, rparen, afterR) =>
                    let hs := hidesetUnion
                      (hidesetIntersection t.hideset rparen.hideset) [m.name]
                    match f with
                    | 0 => .fail
                    | f1 + 1 =>
                      match subst f1 ms body args with
                      | some b => .expanded (addHideset b hs ++ afterR)
                      | none => .fail
                | none => .fail
              | [] => .noExpand
            else .noExpand

end

end Preprocess

namespace Preprocess

/-!
Embedding of the `#include` filename resolution of src/src/preprocess.c
(`search_include_paths`, `read_include_path`).  The filesystem is abstracted
to the list of paths for which `stat` succeeds; `file_exists` is membership.
Paths are uninterpreted strings, so "relative to the process's working
directory" is the bare filename itself.
-/

/-- `join_paths` (preprocess.c): `"dir/file"`. -/
def joinPaths (dir file : String) : String :=
  dir ++ "/" ++ file

/-- `file_exists` (preprocess.c): `stat` succeeds, i.e. the path is in the
abstract filesystem. -/
def fileExists (fs : List String) (path : String) : Bool :=
  fs.contains path

/-- `search_include_paths` (preprocess.c): try `include_paths` in order;
running off the end is the fatal "file not found" diagnostic (`none`). -/
def searchIncludePaths (fs : List String) : List String → String →
    Option String
  | [], _ => none
  | p :: ps, filename =>
      if fileExists fs (joinPaths p filename) then some (joinPaths p filename)
      else searchIncludePaths fs ps filename

/-- The two literal forms of an `#include` argument.  (The third form,
`#include MACRO`, re-enters the preprocessor and then resolves to one of
these two.) -/
inductive IncludeArg where
  | quoted (filename : String)
  | angled (filename : String)
  deriving Repr, DecidableEq

/-- `read_include_path` (preprocess.c) on a literal argument.
`#include "file"` first tests the spelled filename itself with
`file_exists(filename)` — a path relative to the compiler process's current
directory — and otherwise searches the include paths;
`#include <file>` only searches the include paths. -/
def readIncludePath (fs includePaths : List String) :
    IncludeArg → Option String
  | .quoted filename =>
      if fileExists fs filename then some filename
      else searchIncludePaths fs includePaths filename
  | .angled filename => searchIncludePaths fs includePaths filename

/-- Modelled from the spec: the resolution the specification describes —
`#include "file"` "searches the current file's directory then the
include-path list", where `curDir` is the directory of the file containing
the directive; `#include <file>` searches only the include-path list.
Used only to compare the claim against the code. -/
def specReadIncludePath (fs includePaths : List String) (curDir : String) :
    IncludeArg → Option String
  | .quoted filename =>
      if fileExists fs (joinPaths curDir filename) then
        some (joinPaths curDir filename)
      else searchIncludePaths fs includePaths filename
  | .angled filename => searchIncludePaths fs includePaths filename

end Preprocess

namespace Tokenize

/-!
Embedding of `read_int_literal` of src/src/tokenize.c.  The input is the
character list starting at the literal; `strtoul` is modelled by exact
accumulation followed by the `ULONG_MAX` clamp that the C library applies
on overflow (the source never checks `errno`, so the clamped value flows
straight into the token).
-/

/-- The numeric token types `read_int_literal` can assign
(`ty_int` / `ty_uint` / `ty_long` / `ty_ulong`). -/
inductive NumTy where
  | tyInt
  | tyUInt
  | tyLong
  | tyULong
  deriving Repr, DecidableEq

/-- The produced token: `read_int_literal` unconditionally builds a `TK_NUM`
token carrying a 64-bit value (the C field `long val`) and a type. -/
structure NumToken where
  val : Int
  ty : NumTy
  deriving Repr, DecidableEq

def ulongMax : Nat := 2 ^ 64 - 1

/-- Reinterpret an `unsigned long` bit pattern as the C `long` it is stored
into (`tok->val` has type `long`). -/
def toSigned64 (n : Nat) : Int :=
  if n < 2 ^ 63 then (n : Int) else (n : Int) - 2 ^ 64

/-- Digit validity for a `strtoul` base (2, 8, 10 or 16). -/
def isBaseDigit (base : Nat) (c : Char) : Bool :=
  if base = 16 then c.isDigit ∨ ('a' ≤ c.toLower ∧ c.toLower ≤ 'f')
  else c.isDigit ∧ c.toNat - '0'.toNat < base

/-- Value of one digit (with hex letters). -/
def digitVal (c : Char) : Nat :=
  if c.isDigit then c.toNat - '0'.toNat else c.toLower.toNat - 'a'.toNat + 10

/-- The accumulation loop of `strtoul`: consume the maximal run of valid
digits, computing the exact value. -/
def strtoulAux (base : Nat) : List Char → Nat → Nat × List Char
  | [], acc => (acc, [])
  | c :: cs, acc =>
      if isBaseDigit base c then strtoulAux base cs (acc * base + digitVal c)
      else (acc, c :: cs)

/-- `strtoul(p, &p, base)`: the exact digit-run value, clamped to
`ULONG_MAX` on overflow (the out-of-range case of the C standard). -/
def strtoul (base : Nat) (cs : List Char) : Nat × List Char :=
  let r := strtoulAux base cs 0
  (min r.1 ulongMax, r.2)

/-- `strncasecmp(p, s, 2) == 0` for a two-character prefix. -/
def twoPrefixCaseless (a b : Char) : List Char → Bool
  | c1 :: c2 :: _ => c1.toLower = a ∧ c2.toLower = b
  | _ => false

/-- `is_hex` (tokenize.c). -/
def isHexChar (c : Char) : Bool :=
  c.isDigit ∨ ('a' ≤ c.toLower ∧ c.toLower ≤ 'f')

/-- The one- and two-character suffix cases of `read_int_literal`. -/
def readSuffixShort (cs : List Char) : Bool × Bool × List Char :=
  match cs with
  | c1 :: c2 :: rest =>
      if (c1.toLower = 'l' ∧ c2.toLower = 'u') ∨
         (c1.toLower = 'u' ∧ c2.toLower = 'l') then (true, true, rest)
      else if c1.toLower = 'l' ∧ c2.toLower = 'l' ∧ c1 = c2 then
        (true, false, rest)
      else if c1.toLower = 'l' then (true, false, c2 :: rest)
      else if c1.toLower = 'u' then (false, true, c2 :: rest)
      else (false, false, c1 :: c2 :: rest)
  | [c1] =>
      if c1.toLower = 'l' then (true, false, [])
      else if c1.toLower = 'u' then (false, true, [])
      else (false, false, [c1])
  | [] => (false, false, [])

/-- The U/L/LL suffix recognition of `read_int_literal`, in source order:
the three-letter combinations, then the case-insensitive `lu`/`ul` pairs,
then `LL`/`ll`, then single `L`/`l`, then single `U`/`u`.  Returns
`(l, u, rest)`. -/
def readSuffix (cs : List Char) : Bool × Bool × List Char :=
  match cs with
  | c1 :: c2 :: c3 :: rest =>
      if (c1.toLower = 'l' ∧ c2.toLower = 'l' ∧ c3.toLower = 'u' ∧
            (c1 = c2)) ∨
         (c1.toLower = 'u' ∧ c2.toLower = 'l' ∧ c3.toLower = 'l' ∧
            (c2 = c3)) then
        (true, true, rest)
      else readSuffixShort (c1 :: c2 :: c3 :: rest)
  | other => readSuffixShort other

/-- The type-inference tail of `read_int_literal`, keyed on the base, the
suffix flags and the (clamped, unsigned) value. -/
def inferTy (base : Nat) (l u : Bool) (val : Nat) : NumTy :=
  if base = 10 then
    if l ∧ u then .tyULong
    else if l then .tyLong
    else if u then (if val >>> 32 ≠ 0 then .tyULong else .tyUInt)
    else (if val >>> 31 ≠ 0 then .tyLong else .tyInt)
  else
    if l ∧ u then .tyULong
    else if l then (if val >>> 63 ≠ 0 then .tyULong else .tyLong)
    else if u then (if val >>> 32 ≠ 0 then .tyULong else .tyUInt)
    else if val >>> 63 ≠ 0 then .tyULong
    else if val >>> 32 ≠ 0 then .tyLong
    else if val >>> 31 ≠ 0 then .tyUInt
    else .tyInt

/-- `read_int_literal` of src/src/tokenize.c: choose the base from the
prefix, run `strtoul`, read the suffixes, infer the type, and build a
`TK_NUM` token.  There is no failure case: every input yields a token. -/
def readIntLiteral (cs : List Char) : NumToken :=
  let (base, cs1) :=
    if twoPrefixCaseless '0' 'x' cs ∧ (cs.drop 2).head?.any isHexChar then
      (16, cs.drop 2)
    else if twoPrefixCaseless '0' 'b' cs ∧
        ((cs.drop 2).head? = some '0' ∨ (cs.drop 2).head? = some '1') then
      (2, cs.drop 2)
    else if cs.head? = some '0' then (8, cs)
    else (10, cs)
  let (val, cs2) := strtoul base cs1
  let (l, u, _) := readSuffix cs2
  { val := toSigned64 val, ty := inferTy base l u val }

/-- Decimal digit-string value, used to state what "the literal's magnitude"
means for a decimal literal. -/
def decimalVal (cs : List Char) : Nat :=
  cs.foldl (fun acc c => acc * 10 + (c.toNat - '0'.toNat)) 0

end Tokenize

namespace Parse

/-!
Embedding of `struct_decl` (member layout) and of the integer
constant-expression evaluator `eval` of src/src/parse.c.
-/

/-- `align_to` as defined in src/type.c of this repository: round `n` up to
the nearest multiple of `align`. -/
def alignTo (n align : Nat) : Nat :=
  (n + align - 1) / align * align

/-- Modelled from the spec: `align_down(n, align)` of the missing
src/src/type.c — "align_down(bit_offset/8, S)" rounds down to a multiple,
the downward counterpart of `align_to`. -/
def alignDown (n align : Nat) : Nat :=
  n / align * align

/-- Modelled from the spec: the alignment a fresh `struct_type()` of the
missing src/src/type.c starts from.  The spec states "Struct alignment is
`max(member.align)`" with every member alignment at least 1, so the
accumulator starts at 1. -/
def structTypeInitAlign : Nat := 1

/-- One struct member as `struct_decl` consumes it: the byte size of its
type (`mem->ty->size`), its alignment (`mem->align`), and its bitfield
data (`mem->is_bitfield`, `mem->bit_width`). -/
structure SMember where
  size : Nat
  align : Nat
  isBitfield : Bool
  bitWidth : Nat
  deriving Repr, DecidableEq

/-- The `offset` / `bit_offset` `struct_decl` records into a member. -/
structure Placed where
  offset : Nat
  bitOffset : Nat
  deriving Repr, DecidableEq

/-- The crossing test of `struct_decl`:
`bits / (sz*8) != (bits + bit_width - 1) / (sz*8)` — the first and last bit
of the field fall in different `sz`-byte words. -/
def crossesWord (bits width sz : Nat) : Bool :=
  bits / (sz * 8) ≠ (bits + width - 1) / (sz * 8)

/-- One iteration of the member-layout loop of `struct_decl`
(src/src/parse.c): a zero-width bitfield only forces alignment (its
`offset`/`bit_offset` stay at their `calloc` zeroes); a bitfield that would
cross an `S`-byte boundary starts a new word; a non-bitfield member is
aligned to its own alignment.  Returns the recorded placement and the new
bit cursor. -/
def structDeclStep (bits : Nat) (m : SMember) : Placed × Nat :=
  if m.isBitfield ∧ m.bitWidth = 0 then
    (⟨0, 0⟩, alignTo bits (m.size * 8))
  else if m.isBitfield then
    let sz := m.size
    let bits1 :=
      if crossesWord bits m.bitWidth sz then alignTo bits (sz * 8) else bits
    (⟨alignDown (bits1 / 8) sz, bits1 % (sz * 8)⟩, bits1 + m.bitWidth)
  else
    let bits1 := alignTo bits (m.align * 8)
    (⟨bits1 / 8, 0⟩, bits1 + m.size * 8)

/-- The member-layout loop of `struct_decl`: thread the bit cursor and the
running `ty->align` maximum (`if (ty->align < mem->align) ...`) through the
member list. -/
def structDeclAux : List SMember → Nat → Nat → List Placed × Nat × Nat
  | [], bits, al => ([], bits, al)
  | m :: rest, bits, al =>
      let (pm, bits1) := structDeclStep bits m
      let al1 := if al < m.align then m.align else al
      let (ps, bitsF, alF) := structDeclAux rest bits1 al1
      (pm :: ps, bitsF, alF)

/-- `struct_decl` of src/src/parse.c, from the member list to the placement
of every member, the struct's byte size
(`ty->size = align_to(bits, ty->align * 8) / 8`) and its alignment. -/
def structDecl (members : List SMember) : List Placed × Nat × Nat :=
  let (ps, bits, al) := structDeclAux members 0 structTypeInitAlign
  (ps, alignTo bits (al * 8) / 8, al)

/-!
The integer constant-expression evaluator `eval` (src/src/parse.c).  The
embedding works on already-typed nodes (`add_type` runs first in the
source); each constructor carries the type data its `eval` case reads.
Host `long` arithmetic on x86-64 is 64-bit two's complement; the bitwise
and shift cases go through the 64-bit bit pattern, the additive cases use
unbounded integers (their defined range agrees with the host).  A zero
divisor makes the host division instruction fault at compile time — the
evaluator performs it without any guard — which the model records as the
distinguished outcome `divByZero`, kept apart from the evaluator's own
`error_tok(node->tok, "not a constant expression")` diagnostic
(`notConst`).
-/

/-- The two ways `eval` can fail to produce a value: its own diagnostic, or
the unguarded host division faulting on a zero divisor. -/
inductive EvalErr where
  | notConst
  | divByZero
  deriving Repr, DecidableEq

/-- The 64-bit unsigned bit pattern of a C `long` value. -/
def toU64 (v : Int) : Nat :=
  (v.emod (2 ^ 64)).toNat

/-- Reinterpret a 64-bit pattern as a signed `long`. -/
def ofU64 (n : Nat) : Int :=
  if n % 2 ^ 64 < 2 ^ 63 then (n % 2 ^ 64 : Nat) else (n % 2 ^ 64 : Nat) - 2 ^ 64

/-- The cast target data the `ND_CAST` case of `eval` reads:
`is_integer(node->ty)`, `node->ty->is_unsigned`, `node->ty->size`. -/
structure CastTy where
  isInt : Bool
  isUnsigned : Bool
  size : Nat
  deriving Repr, DecidableEq

/-- The `ND_CAST` case of `eval`: a non-integer or 8-byte target returns the
value unchanged; otherwise the value is truncated to 1, 2 or 4 bytes,
zero- or sign-extended (`assert(node->ty->size == 4)` covers the default). -/
def truncCast (ty : CastTy) (v : Int) : Int :=
  if ¬ty.isInt ∨ ty.size = 8 then v
  else
    let bits := if ty.size = 1 then 8 else if ty.size = 2 then 16 else 32
    let m := v.emod (2 ^ bits)
    if ty.isUnsigned then m
    else if m < 2 ^ (bits - 1) then m else m - 2 ^ bits

/-- Constant-expression AST: the node kinds the `eval` switch handles, each
carrying the type flags its case branches on, plus `mod` and `var` as
representatives of the kinds that fall through to the diagnostic
(`ND_MOD` has no `eval` case, and a variable reference is never constant). -/
inductive CNode where
  | num (v : Int)
  | add (l r : CNode)
  | sub (l r : CNode)
  | mul (l r : CNode)
  | div (tyUnsigned : Bool) (l r : CNode)
  | band (l r : CNode)
  | bor (l r : CNode)
  | bxor (l r : CNode)
  | shl (l r : CNode)
  | shr (tyUnsigned : Bool) (tySize : Nat) (l r : CNode)
  | eq (l r : CNode)
  | ne (l r : CNode)
  | lt (lhsUnsigned : Bool) (l r : CNode)
  | le (lhsUnsigned : Bool) (l r : CNode)
  | cond (c t e : CNode)
  | comma (l r : CNode)
  | not (l : CNode)
  | bitnot (l : CNode)
  | logand (l r : CNode)
  | logor (l r : CNode)
  | cast (ty : CastTy) (l : CNode)
  | mod (l r : CNode)
  | var
  deriving Repr, DecidableEq

/-- `eval` of src/src/parse.c on integer-typed nodes.  The `ND_DIV` case
divides immediately — there is no zero-divisor guard between evaluating the
operands and the division, so a zero divisor faults on the host
(`divByZero`) instead of reaching any diagnostic; the final
`error_tok(node->tok, "not a constant expression")` is `notConst`. -/
def eval : CNode → Except EvalErr Int
  | .num v => pure v
  | .add l r => do pure ((← eval l) + (← eval r))
  | .sub l r => do pure ((← eval l) - (← eval r))
  | .mul l r => do pure ((← eval l) * (← eval r))
  | .div uns l r => do
      let a ← eval l
      let b ← eval r
      if b = 0 then throw .divByZero
      else if uns then pure (ofU64 (toU64 a / toU64 b))
      else pure (Int.tdiv a b)
  | .band l r => do pure (ofU64 ((toU64 (← eval l)).land (toU64 (← eval r))))
  | .bor l r => do pure (ofU64 ((toU64 (← eval l)).lor (toU64 (← eval r))))
  | .bxor l r => do pure (ofU64 ((toU64 (← eval l)).xor (toU64 (← eval r))))
  | .shl l r => do
      -- host x86-64 `shl` masks the count to 6 bits; C leaves counts
      -- outside [0,63] undefined
      pure (ofU64 ((toU64 (← eval l)) <<< (toU64 (← eval r) % 64)))
  | .shr uns sz l r => do
      let a ← eval l
      let b ← eval r
      -- unsigned 8-byte: logical host shift; otherwise the host's
      -- arithmetic shift (floor division by a power of two)
      if uns ∧ sz = 8 then pure (ofU64 ((toU64 a) >>> (toU64 b % 64)))
      else pure (Int.ediv a (2 ^ (toU64 b % 64)))
  | .eq l r => do pure (if (← eval l) = (← eval r) then 1 else 0)
  | .ne l r => do pure (if (← eval l) = (← eval r) then 0 else 1)
  | .lt lu l r => do
      let a ← eval l
      let b ← eval r
      if lu then pure (if toU64 a < toU64 b then 1 else 0)
      else pure (if a < b then 1 else 0)
  | .le lu l r => do
      let a ← eval l
      let b ← eval r
      if lu then pure (if toU64 a ≤ toU64 b then 1 else 0)
      else pure (if a ≤ b then 1 else 0)
  | .cond c t e => do
      if (← eval c) ≠ 0 then eval t else eval e
  | .comma _ r => eval r
  | .not l => do pure (if (← eval l) = 0 then 1 else 0)
  | .bitnot l => do pure (ofU64 ((toU64 (← eval l)).xor (2 ^ 64 - 1)))
  | .logand l r => do
      if (← eval l) = 0 then pure 0
      else if (← eval r) = 0 then pure 0 else pure 1
  | .logor l r => do
      if (← eval l) ≠ 0 then pure 1
      else if (← eval r) ≠ 0 then pure 1 else pure 0
  | .cast ty l => do pure (truncCast ty (← eval l))
  | .mod _ _ => throw .notConst
  | .var => throw .notConst

/-- `const_expr` of src/src/parse.c: parse a conditional expression (not
modelled) and `eval` it. -/
def constExpr (n : CNode) : Except EvalErr Int := eval n

end Parse

namespace TypeC

/-!
Embedding of `get_common_type` / `usual_arith_conv` of src/type.c (the
in-tree bootstrap compiler; this older stage has no floating types).
-/

/-- The type kinds of src/711cc.h, with the data `get_common_type` reads:
pointers and arrays carry their base type, structs their stored size. -/
inductive CType where
  | void
  | boolT
  | charT
  | shortT
  | intT
  | longT
  | enumT
  | ptr (base : CType)
  | funcT
  | arrayOf (base : CType) (len : Nat)
  | structT (size : Nat)
  deriving Repr, DecidableEq

/-- The `ty->base` field: set exactly for pointers and arrays (pointer /
array duality of src/711cc.h). -/
def baseOf : CType → Option CType
  | .ptr b => some b
  | .arrayOf b _ => some b
  | _ => none

/-- `size_of` (src/type.c): fatal "void type" diagnostic on `void`,
otherwise the stored size: the primitives as initialised in type.c,
pointers 8, functions 0 (`calloc`), arrays `size_of(base) * len` (computed
by `array_of` at construction), structs their stored size.  `TY_BOOL` and
`TY_ENUM` have no constructor in src/type.c; their sizes (1 and 4) are
modelled from the spec's type table. -/
def sizeOf : CType → Option Nat
  | .void => none
  | .boolT => some 1
  | .charT => some 1
  | .shortT => some 2
  | .intT => some 4
  | .longT => some 8
  | .enumT => some 4
  | .ptr _ => some 8
  | .funcT => some 0
  | .arrayOf b len => (sizeOf b).map (· * len)
  | .structT size => some size

/-- `get_common_type` (src/type.c): a pointer to `ty1->base` when `ty1` has
a base; otherwise `long` when either size is 8 (note `||` short-circuits:
`size_of(ty2)` only runs when `size_of(ty1) != 8`), else `int`. -/
def getCommonType (ty1 ty2 : CType) : Option CType :=
  match baseOf ty1 with
  | some b => some (.ptr b)
  | none => do
      let s1 ← sizeOf ty1
      if s1 = 8 then pure .longT
      else do
        let s2 ← sizeOf ty2
        if s2 = 8 then pure .longT else pure .intT

/-- An expression node as `usual_arith_conv` sees it: something with a type,
into which `new_cast` (parse.c) wraps `ND_CAST` nodes. -/
inductive TNode where
  | atom (ty : CType)
  | castN (lhs : TNode) (ty : CType)
  deriving Repr, DecidableEq

/-- The type of a node (`node->ty`). -/
def tyOf : TNode → CType
  | .atom ty => ty
  | .castN _ ty => ty

/-- `new_cast` (src/parse.c): wrap a node in an `ND_CAST` to `ty`. -/
def newCast (n : TNode) (ty : CType) : TNode :=
  .castN n ty

/-- `usual_arith_conv` (src/type.c): compute the common type and rewrite
both operands with `ND_CAST` nodes to it. -/
def usualArithConv (lhs rhs : TNode) : Option (TNode × TNode) := do
  let ty ← getCommonType (tyOf lhs) (tyOf rhs)
  pure (newCast lhs ty, newCast rhs ty)

/-- Pointer-ness of the computed common type, for stating the claim. -/
def isPtrTy : CType → Bool
  | .ptr _ => true
  | _ => false

end TypeC

namespace Preprocess

/-- Shorthand for a token with clear `at_bol` / `has_space` flags, used by
the concrete instances below. -/
def mkTok (k : TokKind) (s : String) (hs : List String) : PToken :=
  { kind := k, text := s, hideset := hs, atBol := false, hasSpace := false }

/-- The concrete one-parameter identity macro `#define ID(x) x`. -/
def msID : List MacroEntry :=
  [ { name := "ID", mdef := .funclike ["x"] false [mkTok .ident "x" []],
      deleted := false } ]

/-- The concrete object-like macro `#define A B`. -/
def msAB : List MacroEntry :=
  [ { name := "A", mdef := .objlike [mkTok .ident "B" []], deleted := false } ]

end Preprocess

namespace Codegen

/-!
Hand-stated equation lemmas (all by `rfl`) for the mutually recursive
emitters; used by the stack-discipline proofs below.
-/

theorem genAddr_eq_num (b c : Bool) (t : Int) :
    genAddr b c .num t = none := rfl

theorem genAddr_eq_var (b c : Bool) (s : String) (t : Int) :
    genAddr b c (.var s) t = some (t + 1) := rfl

theorem genAddr_eq_member (b c : Bool) (l : Node) (bf : Bool) (t : Int) :
    genAddr b c (.member l bf) t = genAddr b c l t := rfl

theorem genAddr_eq_deref (b c : Bool) (l : Node) (t : Int) :
    genAddr b c (.deref l) t = genExpr b c l t := rfl

theorem genAddr_eq_addr (b c : Bool) (l : Node) (t : Int) :
    genAddr b c (.addr l) t = none := rfl

theorem genAddr_eq_assign (b c : Bool) (l r : Node) (t : Int) :
    genAddr b c (.assign l r) t = none := rfl

theorem genAddr_eq_stmtExpr (b c : Bool) (body : List Node) (t : Int) :
    genAddr b c (.stmtExpr body) t = none := rfl

theorem genAddr_eq_nullExpr (b c : Bool) (t : Int) :
    genAddr b c .nullExpr t = none := rfl

theorem genAddr_eq_comma (b c : Bool) (l r : Node) (t : Int) :
    genAddr b c (.comma l r) t = (genExpr b c l t).bind (fun t1 => genAddr b c r (t1 - 1)) := rfl

theorem genAddr_eq_cast (b c : Bool) (l : Node) (tb : Bool) (t : Int) :
    genAddr b c (.cast l tb) t = none := rfl

theorem genAddr_eq_cond (b c : Bool) (cc thn els : Node) (t : Int) :
    genAddr b c (.cond cc thn els) t = none := rfl

theorem genAddr_eq_not (b c : Bool) (l : Node) (t : Int) :
    genAddr b c (.not l) t = none := rfl

theorem genAddr_eq_bitnot (b c : Bool) (l : Node) (t : Int) :
    genAddr b c (.bitnot l) t = none := rfl

theorem genAddr_eq_logand (b c : Bool) (l r : Node) (t : Int) :
    genAddr b c (.logand l r) t = none := rfl

theorem genAddr_eq_logor (b c : Bool) (l r : Node) (t : Int) :
    genAddr b c (.logor l r) t = none := rfl

theorem genAddr_eq_funcall (b c : Bool) (l : Node) (t : Int) :
    genAddr b c (.funcall l) t = none := rfl

theorem genAddr_eq_binary (b c : Bool) (l r : Node) (t : Int) :
    genAddr b c (.binary l r) t = none := rfl

theorem genAddr_eq_ifStmt (b c : Bool) (cc : Node) (thn : Node) (els : Option Node) (t : Int) :
    genAddr b c (.ifStmt cc thn els) t = none := rfl

theorem genAddr_eq_forStmt (b c : Bool) (ini cc inc : Option Node) (thn : Node) (t : Int) :
    genAddr b c (.forStmt ini cc inc thn) t = none := rfl

theorem genAddr_eq_doStmt (b c : Bool) (thn cc : Node) (t : Int) :
    genAddr b c (.doStmt thn cc) t = none := rfl

theorem genAddr_eq_switchStmt (b c : Bool) (cc thn : Node) (t : Int) :
    genAddr b c (.switchStmt cc thn) t = none := rfl

theorem genAddr_eq_caseStmt (b c : Bool) (l : Node) (t : Int) :
    genAddr b c (.caseStmt l) t = none := rfl

theorem genAddr_eq_block (b c : Bool) (body : List Node) (t : Int) :
    genAddr b c (.block body) t = none := rfl

theorem genAddr_eq_breakStmt (b c : Bool) (t : Int) :
    genAddr b c .breakStmt t = none := rfl

theorem genAddr_eq_continueStmt (b c : Bool) (t : Int) :
    genAddr b c .continueStmt t = none := rfl

theorem genAddr_eq_gotoStmt (b c : Bool) (t : Int) :
    genAddr b c .gotoStmt t = none := rfl

theorem genAddr_eq_labelStmt (b c : Bool) (l : Node) (t : Int) :
    genAddr b c (.labelStmt l) t = none := rfl

theorem genAddr_eq_ret (b c : Bool) (l : Option Node) (t : Int) :
    genAddr b c (.ret l) t = none := rfl

theorem genAddr_eq_exprStmt (b c : Bool) (l : Node) (t : Int) :
    genAddr b c (.exprStmt l) t = none := rfl

theorem genExpr_eq_num (b c : Bool) (t : Int) :
    genExpr b c .num t = some (t + 1) := rfl

theorem genExpr_eq_var (b c : Bool) (s : String) (t : Int) :
    genExpr b c (.var s) t = some (load (t + 1)) := rfl

theorem genExpr_eq_member (b c : Bool) (l : Node) (bf : Bool) (t : Int) :
    genExpr b c (.member l bf) t = (genAddr b c l t).bind (fun t1 => some (load t1)) := rfl

theorem genExpr_eq_deref (b c : Bool) (l : Node) (t : Int) :
    genExpr b c (.deref l) t = (genExpr b c l t).bind (fun t1 => some (load t1)) := rfl

theorem genExpr_eq_addr (b c : Bool) (l : Node) (t : Int) :
    genExpr b c (.addr l) t = genAddr b c l t := rfl

theorem genExpr_eq_assign (b c : Bool) (l r : Node) (t : Int) :
    genExpr b c (.assign l r) t = (genExpr b c r t).bind (fun t1 =>
      (genAddr b c l t1).bind (fun t2 =>
        some (store (if isBitfieldMember l then load (t2 + 1) - 1 else t2)))) := rfl

theorem genExpr_eq_stmtExpr (b c : Bool) (body : List Node) (t : Int) :
    genExpr b c (.stmtExpr body) t = (genStmts b c body t).bind (fun t1 => some (t1 + 1)) := rfl

theorem genExpr_eq_nullExpr (b c : Bool) (t : Int) :
    genExpr b c .nullExpr t = some (t + 1) := rfl

theorem genExpr_eq_comma (b c : Bool) (l r : Node) (t : Int) :
    genExpr b c (.comma l r) t = (genExpr b c l t).bind (fun t1 => genExpr b c r (t1 - 1)) := rfl

theorem genExpr_eq_cast (b c : Bool) (l : Node) (tb : Bool) (t : Int) :
    genExpr b c (.cast l tb) t = (genExpr b c l t).bind (fun t1 => some (castTop tb t1)) := rfl

theorem genExpr_eq_cond (b c : Bool) (cc thn els : Node) (t : Int) :
    genExpr b c (.cond cc thn els) t = (genExpr b c cc t).bind (fun t1 =>
      (genExpr b c thn (cmpZero t1)).bind (fun t2 => genExpr b c els (t2 - 1))) := rfl

theorem genExpr_eq_not (b c : Bool) (l : Node) (t : Int) :
    genExpr b c (.not l) t = (genExpr b c l t).bind (fun t1 => some (cmpZero t1 + 1)) := rfl

theorem genExpr_eq_bitnot (b c : Bool) (l : Node) (t : Int) :
    genExpr b c (.bitnot l) t = genExpr b c l t := rfl

theorem genExpr_eq_logand (b c : Bool) (l r : Node) (t : Int) :
    genExpr b c (.logand l r) t = (genExpr b c l t).bind (fun t1 =>
      (genExpr b c r (cmpZero t1)).bind (fun t2 => some (cmpZero t2 + 1))) := rfl

theorem genExpr_eq_logor (b c : Bool) (l r : Node) (t : Int) :
    genExpr b c (.logor l r) t = (genExpr b c l t).bind (fun t1 =>
      (genExpr b c r (cmpZero t1)).bind (fun t2 => some (cmpZero t2 + 1))) := rfl

theorem genExpr_eq_funcall (b c : Bool) (l : Node) (t : Int) :
    genExpr b c (.funcall l) t = if isVaStartVar l then some (builtinVaStartTop t)
    else (genExpr b c l t).bind (fun t1 => some (t1 - 1 + 1)) := rfl

theorem genExpr_eq_binary (b c : Bool) (l r : Node) (t : Int) :
    genExpr b c (.binary l r) t = (genExpr b c l t).bind (fun t1 =>
      (genExpr b c r t1).bind (fun t2 => some (t2 - 1))) := rfl

theorem genExpr_eq_ifStmt (b c : Bool) (cc : Node) (thn : Node) (els : Option Node) (t : Int) :
    genExpr b c (.ifStmt cc thn els) t = none := rfl

theorem genExpr_eq_forStmt (b c : Bool) (ini cc inc : Option Node) (thn : Node) (t : Int) :
    genExpr b c (.forStmt ini cc inc thn) t = none := rfl

theorem genExpr_eq_doStmt (b c : Bool) (thn cc : Node) (t : Int) :
    genExpr b c (.doStmt thn cc) t = none := rfl

theorem genExpr_eq_switchStmt (b c : Bool) (cc thn : Node) (t : Int) :
    genExpr b c (.switchStmt cc thn) t = none := rfl

theorem genExpr_eq_caseStmt (b c : Bool) (l : Node) (t : Int) :
    genExpr b c (.caseStmt l) t = none := rfl

theorem genExpr_eq_block (b c : Bool) (body : List Node) (t : Int) :
    genExpr b c (.block body) t = none := rfl

theorem genExpr_eq_breakStmt (b c : Bool) (t : Int) :
    genExpr b c .breakStmt t = none := rfl

theorem genExpr_eq_continueStmt (b c : Bool) (t : Int) :
    genExpr b c .continueStmt t = none := rfl

theorem genExpr_eq_gotoStmt (b c : Bool) (t : Int) :
    genExpr b c .gotoStmt t = none := rfl

theorem genExpr_eq_labelStmt (b c : Bool) (l : Node) (t : Int) :
    genExpr b c (.labelStmt l) t = none := rfl

theorem genExpr_eq_ret (b c : Bool) (l : Option Node) (t : Int) :
    genExpr b c (.ret l) t = none := rfl

theorem genExpr_eq_exprStmt (b c : Bool) (l : Node) (t : Int) :
    genExpr b c (.exprStmt l) t = none := rfl

theorem genStmt_eq_num (b c : Bool) (t : Int) :
    genStmt b c .num t = none := rfl

theorem genStmt_eq_var (b c : Bool) (s : String) (t : Int) :
    genStmt b c (.var s) t = none := rfl

theorem genStmt_eq_member (b c : Bool) (l : Node) (bf : Bool) (t : Int) :
    genStmt b c (.member l bf) t = none := rfl

theorem genStmt_eq_deref (b c : Bool) (l : Node) (t : Int) :
    genStmt b c (.deref l) t = none := rfl

theorem genStmt_eq_addr (b c : Bool) (l : Node) (t : Int) :
    genStmt b c (.addr l) t = none := rfl

theorem genStmt_eq_assign (b c : Bool) (l r : Node) (t : Int) :
    genStmt b c (.assign l r) t = none := rfl

theorem genStmt_eq_stmtExpr (b c : Bool) (body : List Node) (t : Int) :
    genStmt b c (.stmtExpr body) t = none := rfl

theorem genStmt_eq_nullExpr (b c : Bool) (t : Int) :
    genStmt b c .nullExpr t = none := rfl

theorem genStmt_eq_comma (b c : Bool) (l r : Node) (t : Int) :
    genStmt b c (.comma l r) t = none := rfl

theorem genStmt_eq_cast (b c : Bool) (l : Node) (tb : Bool) (t : Int) :
    genStmt b c (.cast l tb) t = none := rfl

theorem genStmt_eq_cond (b c : Bool) (cc thn els : Node) (t : Int) :
    genStmt b c (.cond cc thn els) t = none := rfl

theorem genStmt_eq_not (b c : Bool) (l : Node) (t : Int) :
    genStmt b c (.not l) t = none := rfl

theorem genStmt_eq_bitnot (b c : Bool) (l : Node) (t : Int) :
    genStmt b c (.bitnot l) t = none := rfl

theorem genStmt_eq_logand (b c : Bool) (l r : Node) (t : Int) :
    genStmt b c (.logand l r) t = none := rfl

theorem genStmt_eq_logor (b c : Bool) (l r : Node) (t : Int) :
    genStmt b c (.logor l r) t = none := rfl

theorem genStmt_eq_funcall (b c : Bool) (l : Node) (t : Int) :
    genStmt b c (.funcall l) t = none := rfl

theorem genStmt_eq_binary (b c : Bool) (l r : Node) (t : Int) :
    genStmt b c (.binary l r) t = none := rfl

theorem genStmt_eq_ifStmt (b c : Bool) (cc : Node) (thn : Node) (els : Option Node) (t : Int) :
    genStmt b c (.ifStmt cc thn els) t = (genExpr b c cc t).bind (fun t1 =>
      (genStmt b c thn (cmpZero t1)).bind (fun t2 => genStmtOpt b c els t2)) := rfl

theorem genStmt_eq_forStmt (b c : Bool) (ini cc inc : Option Node) (thn : Node) (t : Int) :
    genStmt b c (.forStmt ini cc inc thn) t = (genStmtOpt true true ini t).bind (fun t1 =>
      (genExprCmpOpt true true cc t1).bind (fun t2 =>
        (genStmt true true thn t2).bind (fun t3 =>
          genExprDropOpt true true inc t3))) := rfl

theorem genStmt_eq_doStmt (b c : Bool) (thn cc : Node) (t : Int) :
    genStmt b c (.doStmt thn cc) t = (genStmt true true thn t).bind (fun t1 =>
      (genExpr true true cc t1).bind (fun t2 => some (cmpZero t2))) := rfl

theorem genStmt_eq_switchStmt (b c : Bool) (cc thn : Node) (t : Int) :
    genStmt b c (.switchStmt cc thn) t = (genExpr true c cc t).bind (fun t1 => genStmt true c thn (t1 - 1)) := rfl

theorem genStmt_eq_caseStmt (b c : Bool) (l : Node) (t : Int) :
    genStmt b c (.caseStmt l) t = genStmt b c l t := rfl

theorem genStmt_eq_block (b c : Bool) (body : List Node) (t : Int) :
    genStmt b c (.block body) t = genStmts b c body t := rfl

theorem genStmt_eq_breakStmt (b c : Bool) (t : Int) :
    genStmt b c .breakStmt t = if b then some t else none := rfl

theorem genStmt_eq_continueStmt (b c : Bool) (t : Int) :
    genStmt b c .continueStmt t = if c then some t else none := rfl

theorem genStmt_eq_gotoStmt (b c : Bool) (t : Int) :
    genStmt b c .gotoStmt t = some t := rfl

theorem genStmt_eq_labelStmt (b c : Bool) (l : Node) (t : Int) :
    genStmt b c (.labelStmt l) t = genStmt b c l t := rfl

theorem genStmt_eq_ret (b c : Bool) (l : Option Node) (t : Int) :
    genStmt b c (.ret l) t = genExprDropOpt b c l t := rfl

theorem genStmt_eq_exprStmt (b c : Bool) (l : Node) (t : Int) :
    genStmt b c (.exprStmt l) t = (genExpr b c l t).bind (fun t1 => some (t1 - 1)) := rfl

theorem genStmts_eq_nil (b c : Bool) (t : Int) :
    genStmts b c [] t = some t := rfl

theorem genStmts_eq_cons (b c : Bool) (n : Node) (rest : List Node) (t : Int) :
    genStmts b c (n :: rest) t = (genStmt b c n t).bind (genStmts b c rest) := rfl

theorem genStmtOpt_eq_some (b c : Bool) (s : Node) (t : Int) :
    genStmtOpt b c (some s) t = genStmt b c s t := rfl

theorem genStmtOpt_eq_none (b c : Bool) (t : Int) :
    genStmtOpt b c none t = some t := rfl

theorem genExprCmpOpt_eq_some (b c : Bool) (e : Node) (t : Int) :
    genExprCmpOpt b c (some e) t =
      (genExpr b c e t).bind (fun t1 => some (cmpZero t1)) := rfl

theorem genExprCmpOpt_eq_none (b c : Bool) (t : Int) :
    genExprCmpOpt b c none t = some t := rfl

theorem genExprDropOpt_eq_some (b c : Bool) (e : Node) (t : Int) :
    genExprDropOpt b c (some e) t =
      (genExpr b c e t).bind (fun t1 => some (t1 - 1)) := rfl

theorem genExprDropOpt_eq_none (b c : Bool) (t : Int) :
    genExprDropOpt b c none t = some t := rfl

end Codegen

namespace Codegen

mutual

/-- Joint stack-discipline lemma for the mutually recursive emitters: a
successful `gen_addr` or `gen_expr` raises `top` by exactly one, and a
successful `gen_stmt` restores it. -/
theorem top_joint : ∀ (n : Node),
    (∀ (b c : Bool) (t t' : Int), genAddr b c n t = some t' → t' = t + 1) ∧
    (∀ (b c : Bool) (t t' : Int), genExpr b c n t = some t' → t' = t + 1) ∧
    (∀ (b c : Bool) (t t' : Int), genStmt b c n t = some t' → t' = t)
  | .num => by
      refine ⟨fun b c t t' h => ?_, fun b c t t' h => ?_, fun b c t t' h => ?_⟩
      · rw [genAddr_eq_num] at h; exact Option.noConfusion h
      · rw [genExpr_eq_num] at h
        simp only [Option.some.injEq] at h
        omega
      · rw [genStmt_eq_num] at h; exact Option.noConfusion h
  | .var s => by
      refine ⟨fun b c t t' h => ?_, fun b c t t' h => ?_, fun b c t t' h => ?_⟩
      · rw [genAddr_eq_var] at h
        simp only [Option.some.injEq] at h
        omega
      · rw [genExpr_eq_var] at h
        simp only [load, Option.some.injEq] at h
        omega
      · rw [genStmt_eq_var] at h; exact Option.noConfusion h
  | .member l bf => by
      refine ⟨fun b c t t' h => ?_, fun b c t t' h => ?_, fun b c t t' h => ?_⟩
      · rw [genAddr_eq_member] at h
        exact (top_joint l).1 b c t t' h
      · rw [genExpr_eq_member] at h
        simp only [load, Option.bind_eq_some, Option.some.injEq] at h
        obtain ⟨a, ha, rfl⟩ := h
        exact (top_joint l).1 b c t a ha
      · rw [genStmt_eq_member] at h; exact Option.noConfusion h
  | .deref l => by
      refine ⟨fun b c t t' h => ?_, fun b c t t' h => ?_, fun b c t t' h => ?_⟩
      · rw [genAddr_eq_deref] at h
        exact (top_joint l).2.1 b c t t' h
      · rw [genExpr_eq_deref] at h
        simp only [load, Option.bind_eq_some, Option.some.injEq] at h
        obtain ⟨a, ha, rfl⟩ := h
        exact (top_joint l).2.1 b c t a ha
      · rw [genStmt_eq_deref] at h; exact Option.noConfusion h
  | .addr l => by
      refine ⟨fun b c t t' h => ?_, fun b c t t' h => ?_, fun b c t t' h => ?_⟩
      · rw [genAddr_eq_addr] at h; exact Option.noConfusion h
      · rw [genExpr_eq_addr] at h
        exact (top_joint l).1 b c t t' h
      · rw [genStmt_eq_addr] at h; exact Option.noConfusion h
  | .assign l r => by
      refine ⟨fun b c t t' h => ?_, fun b c t t' h => ?_, fun b c t t' h => ?_⟩
      · rw [genAddr_eq_assign] at h; exact Option.noConfusion h
      · rw [genExpr_eq_assign] at h
        simp only [store, load, Option.bind_eq_some, Option.some.injEq] at h
        obtain ⟨a, ha, a2, ha2, h3⟩ := h
        have h1 := (top_joint r).2.1 b c t a ha
        have h2 := (top_joint l).1 b c a a2 ha2
        split at h3 <;> omega
      · rw [genStmt_eq_assign] at h; exact Option.noConfusion h
  | .stmtExpr body => by
      refine ⟨fun b c t t' h => ?_, fun b c t t' h => ?_, fun b c t t' h => ?_⟩
      · rw [genAddr_eq_stmtExpr] at h; exact Option.noConfusion h
      · rw [genExpr_eq_stmtExpr] at h
        simp only [Option.bind_eq_some, Option.some.injEq] at h
        obtain ⟨a, ha, rfl⟩ := h
        have h1 := top_joint_list body b c t a ha
        omega
      · rw [genStmt_eq_stmtExpr] at h; exact Option.noConfusion h
  | .nullExpr => by
      refine ⟨fun b c t t' h => ?_, fun b c t t' h => ?_, fun b c t t' h => ?_⟩
      · rw [genAddr_eq_nullExpr] at h; exact Option.noConfusion h
      · rw [genExpr_eq_nullExpr] at h
        simp only [Option.some.injEq] at h
        omega
      · rw [genStmt_eq_nullExpr] at h; exact Option.noConfusion h
  | .comma l r => by
      refine ⟨fun b c t t' h => ?_, fun b c t t' h => ?_, fun b c t t' h => ?_⟩
      · rw [genAddr_eq_comma] at h
        simp only [Option.bind_eq_some] at h
        obtain ⟨a, ha, h2⟩ := h
        have h1 := (top_joint l).2.1 b c t a ha
        have h3 := (top_joint r).1 b c (a - 1) t' h2
        omega
      · rw [genExpr_eq_comma] at h
        simp only [Option.bind_eq_some] at h
        obtain ⟨a, ha, h2⟩ := h
        have h1 := (top_joint l).2.1 b c t a ha
        have h3 := (top_joint r).2.1 b c (a - 1) t' h2
        omega
      · rw [genStmt_eq_comma] at h; exact Option.noConfusion h
  | .cast l tb => by
      refine ⟨fun b c t t' h => ?_, fun b c t t' h => ?_, fun b c t t' h => ?_⟩
      · rw [genAddr_eq_cast] at h; exact Option.noConfusion h
      · rw [genExpr_eq_cast] at h
        simp only [castTop, cmpZero, Option.bind_eq_some, Option.some.injEq] at h
        obtain ⟨a, ha, h2⟩ := h
        have h1 := (top_joint l).2.1 b c t a ha
        split at h2 <;> omega
      · rw [genStmt_eq_cast] at h; exact Option.noConfusion h
  | .cond cc thn els => by
      refine ⟨fun b c t t' h => ?_, fun b c t t' h => ?_, fun b c t t' h => ?_⟩
      · rw [genAddr_eq_cond] at h; exact Option.noConfusion h
      · rw [genExpr_eq_cond] at h
        simp only [cmpZero, Option.bind_eq_some] at h
        obtain ⟨a, ha, a2, ha2, h3⟩ := h
        have h1 := (top_joint cc).2.1 b c t a ha
        have h2 := (top_joint thn).2.1 b c (a - 1) a2 ha2
        have h4 := (top_joint els).2.1 b c (a2 - 1) t' h3
        omega
      · rw [genStmt_eq_cond] at h; exact Option.noConfusion h
  | .not l => by
      refine ⟨fun b c t t' h => ?_, fun b c t t' h => ?_, fun b c t t' h => ?_⟩
      · rw [genAddr_eq_not] at h; exact Option.noConfusion h
      · rw [genExpr_eq_not] at h
        simp only [cmpZero, Option.bind_eq_some, Option.some.injEq] at h
        obtain ⟨a, ha, rfl⟩ := h
        have h1 := (top_joint l).2.1 b c t a ha
        omega
      · rw [genStmt_eq_not] at h; exact Option.noConfusion h
  | .bitnot l => by
      refine ⟨fun b c t t' h => ?_, fun b c t t' h => ?_, fun b c t t' h => ?_⟩
      · rw [genAddr_eq_bitnot] at h; exact Option.noConfusion h
      · rw [genExpr_eq_bitnot] at h
        exact (top_joint l).2.1 b c t t' h
      · rw [genStmt_eq_bitnot] at h; exact Option.noConfusion h
  | .logand l r => by
      refine ⟨fun b c t t' h => ?_, fun b c t t' h => ?_, fun b c t t' h => ?_⟩
      · rw [genAddr_eq_logand] at h; exact Option.noConfusion h
      · rw [genExpr_eq_logand] at h
        simp only [cmpZero, Option.bind_eq_some, Option.some.injEq] at h
        obtain ⟨a, ha, a2, ha2, rfl⟩ := h
        have h1 := (top_joint l).2.1 b c t a ha
        have h2 := (top_joint r).2.1 b c (a - 1) a2 ha2
        omega
      · rw [genStmt_eq_logand] at h; exact Option.noConfusion h
  | .logor l r => by
      refine ⟨fun b c t t' h => ?_, fun b c t t' h => ?_, fun b c t t' h => ?_⟩
      · rw [genAddr_eq_logor] at h; exact Option.noConfusion h
      · rw [genExpr_eq_logor] at h
        simp only [cmpZero, Option.bind_eq_some, Option.some.injEq] at h
        obtain ⟨a, ha, a2, ha2, rfl⟩ := h
        have h1 := (top_joint l).2.1 b c t a ha
        have h2 := (top_joint r).2.1 b c (a - 1) a2 ha2
        omega
      · rw [genStmt_eq_logor] at h; exact Option.noConfusion h
  | .funcall l => by
      refine ⟨fun b c t t' h => ?_, fun b c t t' h => ?_, fun b c t t' h => ?_⟩
      · rw [genAddr_eq_funcall] at h; exact Option.noConfusion h
      · rw [genExpr_eq_funcall] at h
        simp only [builtinVaStartTop, Option.bind_eq_some, Option.some.injEq] at h
        split at h
        · simp only [Option.some.injEq] at h
          omega
        · simp only [Option.bind_eq_some, Option.some.injEq] at h
          obtain ⟨a, ha, rfl⟩ := h
          have h1 := (top_joint l).2.1 b c t a ha
          omega
      · rw [genStmt_eq_funcall] at h; exact Option.noConfusion h
  | .binary l r => by
      refine ⟨fun b c t t' h => ?_, fun b c t t' h => ?_, fun b c t t' h => ?_⟩
      · rw [genAddr_eq_binary] at h; exact Option.noConfusion h
      · rw [genExpr_eq_binary] at h
        simp only [Option.bind_eq_some, Option.some.injEq] at h
        obtain ⟨a, ha, a2, ha2, rfl⟩ := h
        have h1 := (top_joint l).2.1 b c t a ha
        have h2 := (top_joint r).2.1 b c a a2 ha2
        omega
      · rw [genStmt_eq_binary] at h; exact Option.noConfusion h
  | .ifStmt cc thn els => by
      refine ⟨fun b c t t' h => ?_, fun b c t t' h => ?_, fun b c t t' h => ?_⟩
      · rw [genAddr_eq_ifStmt] at h; exact Option.noConfusion h
      · rw [genExpr_eq_ifStmt] at h; exact Option.noConfusion h
      · rw [genStmt_eq_ifStmt] at h
        simp only [cmpZero, Option.bind_eq_some] at h
        obtain ⟨a, ha, a2, ha2, h3⟩ := h
        have h1 := (top_joint cc).2.1 b c t a ha
        have h2 := (top_joint thn).2.2 b c (a - 1) a2 ha2
        rcases els with _ | e
        · rw [genStmtOpt_eq_none] at h3
          simp only [Option.some.injEq] at h3
          omega
        · rw [genStmtOpt_eq_some] at h3
          have h4 := (top_joint e).2.2 b c a2 t' h3
          omega
  | .forStmt ini cc inc thn => by
      refine ⟨fun b c t t' h => ?_, fun b c t t' h => ?_, fun b c t t' h => ?_⟩
      · rw [genAddr_eq_forStmt] at h; exact Option.noConfusion h
      · rw [genExpr_eq_forStmt] at h; exact Option.noConfusion h
      · rw [genStmt_eq_forStmt] at h
        simp only [Option.bind_eq_some] at h
        obtain ⟨a, ha, a2, ha2, a3, ha3, h4⟩ := h
        have h1 : a = t := by
          rcases ini with _ | s
          · rw [genStmtOpt_eq_none] at ha
            simp only [Option.some.injEq] at ha
            omega
          · rw [genStmtOpt_eq_some] at ha
            exact (top_joint s).2.2 true true t a ha
        have h2 : a2 = a := by
          rcases cc with _ | e
          · rw [genExprCmpOpt_eq_none] at ha2
            simp only [Option.some.injEq] at ha2
            omega
          · rw [genExprCmpOpt_eq_some] at ha2
            simp only [cmpZero, Option.bind_eq_some, Option.some.injEq] at ha2
            obtain ⟨x, hx, rfl⟩ := ha2
            have := (top_joint e).2.1 true true a x hx
            omega
        have h3 := (top_joint thn).2.2 true true a2 a3 ha3
        rcases inc with _ | e2
        · rw [genExprDropOpt_eq_none] at h4
          simp only [Option.some.injEq] at h4
          omega
        · rw [genExprDropOpt_eq_some] at h4
          simp only [Option.bind_eq_some, Option.some.injEq] at h4
          obtain ⟨x, hx, rfl⟩ := h4
          have := (top_joint e2).2.1 true true a3 x hx
          omega
  | .doStmt thn cc => by
      refine ⟨fun b c t t' h => ?_, fun b c t t' h => ?_, fun b c t t' h => ?_⟩
      · rw [genAddr_eq_doStmt] at h; exact Option.noConfusion h
      · rw [genExpr_eq_doStmt] at h; exact Option.noConfusion h
      · rw [genStmt_eq_doStmt] at h
        simp only [cmpZero, Option.bind_eq_some, Option.some.injEq] at h
        obtain ⟨a, ha, a2, ha2, rfl⟩ := h
        have h1 := (top_joint thn).2.2 true true t a ha
        have h2 := (top_joint cc).2.1 true true a a2 ha2
        omega
  | .switchStmt cc thn => by
      refine ⟨fun b c t t' h => ?_, fun b c t t' h => ?_, fun b c t t' h => ?_⟩
      · rw [genAddr_eq_switchStmt] at h; exact Option.noConfusion h
      · rw [genExpr_eq_switchStmt] at h; exact Option.noConfusion h
      · rw [genStmt_eq_switchStmt] at h
        simp only [Option.bind_eq_some] at h
        obtain ⟨a, ha, h2⟩ := h
        have h1 := (top_joint cc).2.1 true c t a ha
        have h3 := (top_joint thn).2.2 true c (a - 1) t' h2
        omega
  | .caseStmt l => by
      refine ⟨fun b c t t' h => ?_, fun b c t t' h => ?_, fun b c t t' h => ?_⟩
      · rw [genAddr_eq_caseStmt] at h; exact Option.noConfusion h
      · rw [genExpr_eq_caseStmt] at h; exact Option.noConfusion h
      · rw [genStmt_eq_caseStmt] at h
        exact (top_joint l).2.2 b c t t' h
  | .block body => by
      refine ⟨fun b c t t' h => ?_, fun b c t t' h => ?_, fun b c t t' h => ?_⟩
      · rw [genAddr_eq_block] at h; exact Option.noConfusion h
      · rw [genExpr_eq_block] at h; exact Option.noConfusion h
      · rw [genStmt_eq_block] at h
        exact top_joint_list body b c t t' h
  | .breakStmt => by
      refine ⟨fun b c t t' h => ?_, fun b c t t' h => ?_, fun b c t t' h => ?_⟩
      · rw [genAddr_eq_breakStmt] at h; exact Option.noConfusion h
      · rw [genExpr_eq_breakStmt] at h; exact Option.noConfusion h
      · rw [genStmt_eq_breakStmt] at h
        split at h
        · simp only [Option.some.injEq] at h
          omega
        · exact Option.noConfusion h
  | .continueStmt => by
      refine ⟨fun b c t t' h => ?_, fun b c t t' h => ?_, fun b c t t' h => ?_⟩
      · rw [genAddr_eq_continueStmt] at h; exact Option.noConfusion h
      · rw [genExpr_eq_continueStmt] at h; exact Option.noConfusion h
      · rw [genStmt_eq_continueStmt] at h
        split at h
        · simp only [Option.some.injEq] at h
          omega
        · exact Option.noConfusion h
  | .gotoStmt => by
      refine ⟨fun b c t t' h => ?_, fun b c t t' h => ?_, fun b c t t' h => ?_⟩
      · rw [genAddr_eq_gotoStmt] at h; exact Option.noConfusion h
      · rw [genExpr_eq_gotoStmt] at h; exact Option.noConfusion h
      · rw [genStmt_eq_gotoStmt] at h
        simp only [Option.some.injEq] at h
        omega
  | .labelStmt l => by
      refine ⟨fun b c t t' h => ?_, fun b c t t' h => ?_, fun b c t t' h => ?_⟩
      · rw [genAddr_eq_labelStmt] at h; exact Option.noConfusion h
      · rw [genExpr_eq_labelStmt] at h; exact Option.noConfusion h
      · rw [genStmt_eq_labelStmt] at h
        exact (top_joint l).2.2 b c t t' h
  | .ret l => by
      refine ⟨fun b c t t' h => ?_, fun b c t t' h => ?_, fun b c t t' h => ?_⟩
      · rw [genAddr_eq_ret] at h; exact Option.noConfusion h
      · rw [genExpr_eq_ret] at h; exact Option.noConfusion h
      · rw [genStmt_eq_ret] at h
        rcases l with _ | e
        · rw [genExprDropOpt_eq_none] at h
          simp only [Option.some.injEq] at h
          omega
        · rw [genExprDropOpt_eq_some] at h
          simp only [Option.bind_eq_some, Option.some.injEq] at h
          obtain ⟨a, ha, rfl⟩ := h
          have := (top_joint e).2.1 b c t a ha
          omega
  | .exprStmt l => by
      refine ⟨fun b c t t' h => ?_, fun b c t t' h => ?_, fun b c t t' h => ?_⟩
      · rw [genAddr_eq_exprStmt] at h; exact Option.noConfusion h
      · rw [genExpr_eq_exprStmt] at h; exact Option.noConfusion h
      · rw [genStmt_eq_exprStmt] at h
        simp only [Option.bind_eq_some, Option.some.injEq] at h
        obtain ⟨a, ha, rfl⟩ := h
        have := (top_joint l).2.1 b c t a ha
        omega

/-- Stack-discipline lemma for the statement lists of `ND_BLOCK` and
`ND_STMT_EXPR`. -/
theorem top_joint_list : ∀ (l : List Node) (b c : Bool) (t t' : Int),
    genStmts b c l t = some t' → t' = t
  | [], b, c, t, t', h => by
      rw [genStmts_eq_nil] at h
      simp only [Option.some.injEq] at h
      omega
  | n :: rest, b, c, t, t', h => by
      rw [genStmts_eq_cons] at h
      simp only [Option.bind_eq_some] at h
      obtain ⟨a, ha, h2⟩ := h
      have h1 := (top_joint n).2.2 b c t a ha
      have h3 := top_joint_list rest b c a t' h2
      omega

end

end Codegen

namespace Codegen

/-- C2: for every function, after the code emitter has generated the
function's body the register-stack counter `top` equals 0, so the emitter's
end-of-function assertion `assert(top == 0)` holds; more generally,
emitting any statement node leaves `top` equal to its value on entry, and
emitting any expression node increases `top` by exactly one. -/
theorem c2_top_discipline :
    (∀ (b c : Bool) (n : Node) (t t' : Int),
        genStmt b c n t = some t' → t' = t) ∧
    (∀ (b c : Bool) (n : Node) (t t' : Int),
        genExpr b c n t = some t' → t' = t + 1) ∧
    (∀ (body : Node) (t' : Int), emitTextBody body = some t' → t' = 0) :=
  ⟨fun b c n t t' h => (top_joint n).2.2 b c t t' h,
   fun b c n t t' h => (top_joint n).2.1 b c t t' h,
   fun body t' h => (top_joint body).2.2 false false 0 t' h⟩

/-- Witness for C2 at the concrete function body `{ 1; }`. -/
theorem c2_top_discipline_witness :
    emitTextBody (Node.exprStmt Node.num) = some 0 ∧ (0 : Int) = 0 :=
  have h : emitTextBody (Node.exprStmt Node.num) = some 0 := by
    show genStmt false false (Node.exprStmt Node.num) 0 = some 0
    rw [genStmt_eq_exprStmt, genExpr_eq_num]
    rfl
  ⟨h, c2_top_discipline.2.2 (Node.exprStmt Node.num) 0 h⟩

/-- C5 (counterexample): the variadic prologue does not match the claimed
register save area.  It spills only six floating registers, not eight
(`%xmm6` is in the claimed register list but never spilled), and the save
area it writes spans 96 bytes, not 176. -/
theorem c5_vararg_save_counterexample :
    prologueRegSave true = varargRegSaveInstrs ∧
    "%xmm6" ∈ specRegSave ∧ "%xmm7" ∈ specRegSave ∧
    "%xmm6" ∉ (prologueRegSave true).map Prod.fst ∧
    "%xmm7" ∉ (prologueRegSave true).map Prod.fst ∧
    (prologueRegSave true).length = 12 ∧ specRegSave.length = 14 ∧
    regSaveAreaBytes = 96 ∧ specRegSaveAreaBytes = 176 ∧
    regSaveAreaBytes ≠ specRegSaveAreaBytes := by
  decide

/-- C5 (amended): for every variadic function definition, the emitted
prologue spills the six integer argument registers `%rdi %rsi %rdx %rcx
%r8 %r9` and the six floating argument registers `%xmm0..%xmm5` — 8 bytes
each — into a 96-byte register save area at the fixed frame offsets
`-128(%rbp) .. -40(%rbp)`; a non-variadic prologue spills nothing; and
`__builtin_va_start` later points into that area: it stores
`gp_offset = 8 * #integer-params`, `fp_offset = 48 + 8 * #float-params`
(48 bytes being exactly the six 8-byte integer slots) and the register
save area pointer `%rbp - 128`, the lowest spill offset. -/
theorem c5_vararg_save_area :
    (prologueRegSave true).map Prod.fst =
      [ "%rdi", "%rsi", "%rdx", "%rcx", "%r8", "%r9",
        "%xmm0", "%xmm1", "%xmm2", "%xmm3", "%xmm4", "%xmm5" ] ∧
    (prologueRegSave true).map Prod.snd =
      (List.range 12).map (fun i => -128 + 8 * (i : Int)) ∧
    regSaveAreaBytes = 96 ∧
    prologueRegSave false = [] ∧
    (∀ params : List Bool,
      builtinVaStart params =
        { gpOffset := params.countP (· = false) * 8,
          fpOffset := 48 + params.countP (· = true) * 8,
          regSaveArea := -128 }) ∧
    (48 = 8 * (((prologueRegSave true).map Prod.fst).filter
      (· ∈ [ "%rdi", "%rsi", "%rdx", "%rcx", "%r8", "%r9" ])).length) ∧
    (∀ params : List Bool,
      (builtinVaStart params).regSaveArea =
        ((prologueRegSave true).map Prod.snd).foldl min 0) := by
  have hmin : ((prologueRegSave true).map Prod.snd).foldl min 0 = (-128 : Int) := by
    decide
  refine ⟨by decide, by decide, by decide, by decide, fun _ => rfl, by decide, ?_⟩
  intro params
  rw [hmin]
  rfl

end Codegen

namespace Preprocess

/-- Union of hidesets contains a name exactly when either side does. -/
theorem hidesetContains_union (a b : List String) (s : String) :
    hidesetContains (hidesetUnion a b) s =
      (hidesetContains a s || hidesetContains b s) := by
  simp [hidesetContains, hidesetUnion, List.any_append]

/-- Every token produced by `add_hideset` is a copy of a source token with
`hs` unioned into its hideset. -/
theorem addHideset_mem {ts : List PToken} {hs : List String} {u : PToken}
    (h : u ∈ addHideset ts hs) :
    ∃ v ∈ ts, u = { v with hideset := hidesetUnion v.hideset hs } := by
  simp only [addHideset, List.mem_map] at h
  obtain ⟨v, hv, rfl⟩ := h
  exact ⟨v, hv, rfl⟩

/-- `expand_macro` refuses a token whose own spelling is in its hideset. -/
theorem expand_refused (f : Nat) (ms : List MacroEntry) (t : PToken)
    (rest : List PToken) (h : hidesetContains t.hideset t.text = true) :
    expandMacro f ms (t :: rest) = .noExpand := by
  simp [expandMacro, h]

/-- Object-like expansion: with the stored body tokens carrying empty
hidesets (as tokens copied from a `#define` line do), every produced body
token carries exactly `T.hideset ∪ {M}`. -/
theorem expand_objlike (f : Nat) (ms : List MacroEntry) (t : PToken)
    (rest : List PToken) (m : MacroEntry) (body : List PToken)
    (hno : hidesetContains t.hideset t.text = false)
    (hfind : findMacro ms t = some m) (hobj : m.mdef = .objlike body)
    (hbody : ∀ u ∈ body, u.hideset = []) :
    expandMacro f ms (t :: rest) =
      .expanded (body.map
        (fun u => { u with hideset := hidesetUnion t.hideset [m.name] }) ++
        rest) := by
  have hadd : addHideset body (hidesetUnion t.hideset [m.name]) =
      body.map (fun u => { u with hideset := hidesetUnion t.hideset [m.name] }) := by
    unfold addHideset
    apply List.map_congr_left
    intro u hu
    rw [hbody u hu]
    rfl
  simp [expandMacro, hno, hfind, hobj, hadd]

/-- Function-like expansion: the produced stream prefixes the substituted
body under `(T.hideset ∩ rparen.hideset) ∪ {M}`, and every produced token's
hideset is its substitution-time hideset extended by that set — so it
always contains `M` and everything in the intersection, but it is not in
general equal to `(T.hideset ∩ rparen.hideset) ∪ {M}`. -/
theorem expand_funclike (f1 : Nat) (ms : List MacroEntry) (t lp : PToken)
    (afterLp : List PToken) (m : MacroEntry) (params : List String)
    (isVar : Bool) (body : List PToken)
    (args : List (String × List PToken)) (rparen : PToken)
    (afterR sb : List PToken)
    (hno : hidesetContains t.hideset t.text = false)
    (hfind : findMacro ms t = some m)
    (hfun : m.mdef = .funclike params isVar body)
    (hlp : lp.text = "(")
    (hargs : readMacroArgs params isVar afterLp = some (args, rparen, afterR))
    (hsubst : subst f1 ms body args = some sb) :
    expandMacro (f1 + 1) ms (t :: lp :: afterLp) =
      .expanded (addHideset sb
        (hidesetUnion (hidesetIntersection t.hideset rparen.hideset)
          [m.name]) ++ afterR) ∧
    (∀ u ∈ addHideset sb
        (hidesetUnion (hidesetIntersection t.hideset rparen.hideset)
          [m.name]),
      hidesetContains u.hideset m.name = true ∧
      ∀ s : String,
        hidesetContains (hidesetIntersection t.hideset rparen.hideset) s =
          true →
        hidesetContains u.hideset s = true) := by
  constructor
  · simp [expandMacro, hno, hfind, hfun, nextIsLParen, hlp, hargs, hsubst]
  · intro u hu
    obtain ⟨v, hv, rfl⟩ := addHideset_mem hu
    constructor
    · simp [hidesetContains_union, hidesetContains, hidesetUnion]
    · intro s hsst
      simp only [hidesetContains_union]
      rw [hsst]
      simp

/-- C1 (amended): for every macro-expansion step performed by the
preprocessor — a token T whose text equals a macro name M is not expanded
when M is already in T's hideset; when an object-like macro M is expanded
at T every token of the produced body carries hideset `T.hideset ∪ {M}`
(the stored body tokens carry empty hidesets); and when a function-like
macro M invoked at T with closing-parenthesis token R is expanded, every
token of the substituted body carries its substitution-time hideset
extended by `(T.hideset ∩ R.hideset) ∪ {M}` — in particular it always
contains M and the whole intersection, but (unlike the original claim) it
need not equal `(T.hideset ∩ R.hideset) ∪ {M}`, since substituted argument
tokens keep the hidesets they already carry. -/
theorem c1_expand_hideset_rules (ms : List MacroEntry) (t : PToken) :
    (∀ (f : Nat) (rest : List PToken),
      hidesetContains t.hideset t.text = true →
      expandMacro f ms (t :: rest) = .noExpand) ∧
    (∀ (f : Nat) (rest : List PToken) (m : MacroEntry) (body : List PToken),
      hidesetContains t.hideset t.text = false →
      findMacro ms t = some m → m.mdef = .objlike body →
      (∀ u ∈ body, u.hideset = []) →
      expandMacro f ms (t :: rest) =
        .expanded (body.map
          (fun u => { u with hideset := hidesetUnion t.hideset [m.name] }) ++
          rest)) ∧
    (∀ (f1 : Nat) (lp : PToken) (afterLp : List PToken) (m : MacroEntry)
        (params : List String) (isVar : Bool)
        (body : List PToken) (args : List (String × List PToken))
        (rparen : PToken) (afterR sb : List PToken),
      hidesetContains t.hideset t.text = false →
      findMacro ms t = some m → m.mdef = .funclike params isVar body →
      lp.text = "(" →
      readMacroArgs params isVar afterLp = some (args, rparen, afterR) →
      subst f1 ms body args = some sb →
      expandMacro (f1 + 1) ms (t :: lp :: afterLp) =
        .expanded (addHideset sb
          (hidesetUnion (hidesetIntersection t.hideset rparen.hideset)
            [m.name]) ++ afterR) ∧
      (∀ u ∈ addHideset sb
          (hidesetUnion (hidesetIntersection t.hideset rparen.hideset)
            [m.name]),
        hidesetContains u.hideset m.name = true ∧
        ∀ s : String,
          hidesetContains (hidesetIntersection t.hideset rparen.hideset) s =
            true →
          hidesetContains u.hideset s = true)) :=
  ⟨fun f rest h => expand_refused f ms t rest h,
   fun f rest m body hno hfind hobj hbody =>
     expand_objlike f ms t rest m body hno hfind hobj hbody,
   fun f1 lp afterLp m params isVar body args rparen afterR sb hno hfind
       hfun hlp hargs hsubst =>
     expand_funclike f1 ms t lp afterLp m params isVar body args rparen
       afterR sb hno hfind hfun hlp hargs hsubst⟩

/-- Witness for C1 on the object-like macro `#define A B` at a token `A`
with hideset `["X"]`: the produced `B` carries `["X", "A"]`. -/
theorem c1_expand_hideset_rules_witness :
    expandMacro 3 msAB [mkTok .ident "A" ["X"]] =
      .expanded [mkTok .ident "B" (hidesetUnion ["X"] ["A"])] :=
  have h := (c1_expand_hideset_rules msAB
      (mkTok .ident "A" ["X"])).2.1 3 [] (msAB.get ⟨0, by decide⟩)
      [mkTok .ident "B" []] (by decide) (by decide) (by decide)
      (by decide)
  by
    rw [h]
    decide

/-- C1 (counterexample): with `#define ID(x) x` and `#define`d-elsewhere
hideset `["A"]` on the argument token `A`, expanding `ID ( A )` (all
invocation tokens with empty hidesets) produces the argument token carrying
hideset `["A", "ID"]`, which differs — it contains `"A"` — from the
`(T.hideset ∩ R.hideset) ∪ {M} = ["ID"]` that the claim says every produced
token carries. -/
theorem c1_funclike_hideset_counterexample :
    expandMacro 5 msID
        [mkTok .ident "ID" [], mkTok .punct "(" [], mkTok .ident "A" ["A"],
         mkTok .punct ")" []] =
      .expanded [mkTok .ident "A" ["A", "ID"]] ∧
    hidesetContains ["A", "ID"] "A" = true ∧
    hidesetContains
      (hidesetUnion
        (hidesetIntersection (mkTok .ident "ID" []).hideset
          (mkTok .punct ")" []).hideset) ["ID"]) "A" = false := by
  decide

/-- C9: a function-like macro name not followed by `(` is left alone:
`expand_macro` returns false without a diagnostic, and the expansion loop
passes the very same token — spelling and hideset untouched — to the
output. -/
theorem c9_funclike_no_paren (f : Nat) (ms : List MacroEntry) (t : PToken)
    (rest : List PToken) (m : MacroEntry) (params : List String)
    (isVar : Bool) (body : List PToken)
    (hno : hidesetContains t.hideset t.text = false)
    (hfind : findMacro ms t = some m)
    (hfun : m.mdef = .funclike params isVar body)
    (hnlp : nextIsLParen rest = false)
    (hnh : isHash t = false) :
    expandMacro f ms (t :: rest) = .noExpand ∧
    preprocess2 (f + 1) ms (t :: rest) = (preprocess2 f ms rest).map (t :: ·) := by
  have hexp : expandMacro f ms (t :: rest) = .noExpand := by
    simp [expandMacro, hno, hfind, hfun, hnlp]
  refine ⟨hexp, ?_⟩
  simp [preprocess2, hexp, hnh]

/-- Witness for C9: `ID` of `#define ID(x) x` followed by the identifier
`y` stays exactly itself. -/
theorem c9_funclike_no_paren_witness :
    expandMacro 3 msID [mkTok .ident "ID" [], mkTok .ident "y" []] =
      .noExpand ∧
    preprocess2 4 msID [mkTok .ident "ID" [], mkTok .ident "y" []] =
      (preprocess2 3 msID [mkTok .ident "y" []]).map
        (mkTok .ident "ID" [] :: ·) :=
  c9_funclike_no_paren 3 msID (mkTok .ident "ID" []) [mkTok .ident "y" []]
    (msID.get ⟨0, by decide⟩) ["x"] false [mkTok .ident "x" []]
    (by decide) (by decide) (by decide) (by decide) (by decide)

/-- `search_include_paths` returns the join of the first include path whose
join with the filename exists. -/
theorem searchIncludePaths_eq_find (fs : List String) (f : String) :
    ∀ ips : List String,
      searchIncludePaths fs ips f =
        (ips.find? (fun d => fileExists fs (joinPaths d f))).map
          (fun d => joinPaths d f)
  | [] => rfl
  | p :: ps => by
      rw [searchIncludePaths, List.find?_cons]
      by_cases h : fileExists fs (joinPaths p f)
      · simp [h]
      · simp [h, searchIncludePaths_eq_find fs f ps]

/-- C6 (amended): `#include "file"` first tries the spelled filename itself
— a path relative to the compiler process's working directory, not the
directory of the including file — and only then searches the include-path
list; `#include <file>` searches only the include-path list; and the
include-path search returns the first hit in list order. -/
theorem c6_include_search (fs ips : List String) (f : String) :
    (fileExists fs f = true → readIncludePath fs ips (.quoted f) = some f) ∧
    (fileExists fs f = false →
      readIncludePath fs ips (.quoted f) = searchIncludePaths fs ips f) ∧
    (readIncludePath fs ips (.angled f) = searchIncludePaths fs ips f) ∧
    (searchIncludePaths fs ips f =
      (ips.find? (fun d => fileExists fs (joinPaths d f))).map
        (fun d => joinPaths d f)) := by
  refine ⟨fun h => ?_, fun h => ?_, rfl, searchIncludePaths_eq_find fs f ips⟩
  · simp [readIncludePath, h]
  · simp [readIncludePath, h]

/-- Witness for C6: with the filesystem `{"inc/foo.h"}` and include path
`inc`, the quoted filename `foo.h` does not exist as spelled and resolves
through the include path to `inc/foo.h`. -/
theorem c6_include_search_witness :
    fileExists ["inc/foo.h"] "foo.h" = false ∧
    readIncludePath ["inc/foo.h"] ["inc"] (.quoted "foo.h") =
      searchIncludePaths ["inc/foo.h"] ["inc"] "foo.h" :=
  ⟨by decide,
   (c6_include_search ["inc/foo.h"] ["inc"] "foo.h").2.1 (by decide)⟩

/-- C6 (counterexample): with the directive sitting in a file of directory
`dir` and only `dir/b.h` on disk, the spec's resolution (current file's
directory first) finds `dir/b.h`, while the code's `read_include_path`
reports file-not-found: the code never searches the including file's
directory. -/
theorem c6_include_quoted_counterexample :
    readIncludePath ["dir/b.h"] [] (.quoted "b.h") = none ∧
    specReadIncludePath ["dir/b.h"] [] "dir" (.quoted "b.h") =
      some "dir/b.h" ∧
    (none : Option String) ≠ some "dir/b.h" := by
  decide

end Preprocess

namespace Tokenize

/-- C7 (counterexample): `0x10000000000000000` is 2^64, one past
`ULONG_MAX`; `read_int_literal` does not reject it — it has no overflow
check at all — but produces a `TK_NUM` token whose value saturated to
`ULONG_MAX` in `strtoul` (stored as the `long` −1) with type
`unsigned long`. -/
theorem c7_huge_literal_counterexample :
    readIntLiteral "0x10000000000000000".data =
      { val := -1, ty := .tyULong } ∧
    (strtoulAux 16 ("0x10000000000000000".data.drop 2) 0).1 = 2 ^ 64 ∧
    ulongMax < 2 ^ 64 := by
  decide

/-- C7 (amended): an integer literal whose magnitude does not fit in 64
bits is not rejected: `read_int_literal` always produces a `TK_NUM` token.
For a decimal spelling (no 0x/0b/0 prefix) whose digit run exceeds
`ULONG_MAX` and that carries no suffix, the token's value is the `strtoul`
saturation `ULONG_MAX` — read back through the signed `val` field as −1 —
and the inferred type is `long` (the `val >> 31` test sees a nonzero
value). -/
theorem c7_huge_literal_saturates (cs rest rest2 : List Char) (n : Nat)
    (hx : ¬(twoPrefixCaseless '0' 'x' cs ∧ (cs.drop 2).head?.any isHexChar))
    (hb : ¬(twoPrefixCaseless '0' 'b' cs ∧
      ((cs.drop 2).head? = some '0' ∨ (cs.drop 2).head? = some '1')))
    (h0 : ¬cs.head? = some '0')
    (hrun : strtoulAux 10 cs 0 = (n, rest))
    (hbig : 2 ^ 64 ≤ n)
    (hsuf : readSuffix rest = (false, false, rest2)) :
    readIntLiteral cs = { val := -1, ty := .tyLong } := by
  have hclamp : strtoul 10 cs = (ulongMax, rest) := by
    simp only [strtoul, hrun]
    have : min n ulongMax = ulongMax :=
      Nat.min_eq_right (by simp only [ulongMax]; omega)
    rw [this]
  have hty : inferTy 10 false false ulongMax = .tyLong := by decide
  have hval : toSigned64 ulongMax = -1 := by decide
  simp only [readIntLiteral, if_neg hx, if_neg hb, if_neg h0, hclamp, hsuf,
    hty, hval]

/-- Witness for C7 at the decimal literal `18446744073709551616` (2^64). -/
theorem c7_huge_literal_saturates_witness :
    readIntLiteral "18446744073709551616".data =
      { val := -1, ty := .tyLong } :=
  c7_huge_literal_saturates "18446744073709551616".data [] []
    18446744073709551616 (by decide) (by decide) (by decide) (by decide)
    (by decide) (by decide)

end Tokenize

namespace Parse

/-- C10: the integer constant-expression evaluator divides without a
zero-divisor guard.  For every `ND_DIV` node whose operands evaluate (in a
constant-required context these come from `const_expr`) and whose right
operand evaluates to 0, `eval` proceeds to the host division — which
faults — rather than taking its "not a constant expression" error branch,
for both the signed and the unsigned division paths. -/
theorem c10_eval_div_unguarded (uns : Bool) (l r : CNode) (a : Int)
    (hl : eval l = .ok a) (hr : eval r = .ok 0) :
    eval (.div uns l r) = .error .divByZero ∧
    eval (.div uns l r) ≠ .error .notConst ∧
    constExpr (.div uns l r) = .error .divByZero := by
  have h : eval (.div uns l r) = .error .divByZero := by
    simp only [eval, hl, hr]
    rfl
  exact ⟨h, by simp [h], h⟩

/-- Witness for C10 at the constant expression `1 / 0`. -/
theorem c10_eval_div_unguarded_witness :
    eval (.div false (.num 1) (.num 0)) = .error .divByZero ∧
    eval (.div false (.num 1) (.num 0)) ≠ .error .notConst ∧
    constExpr (.div false (.num 1) (.num 0)) = .error .divByZero :=
  c10_eval_div_unguarded false (.num 1) (.num 0) 1 rfl rfl

end Parse

namespace TypeC

/-- C8 (counterexample): with `t1 = int` and `t2 = int*`, the second
operand has a pointer base but `get_common_type` returns `long`, not a
pointer — only `ty1->base` is consulted. -/
theorem c8_common_type_counterexample :
    getCommonType .intT (.ptr .intT) = some .longT ∧
    isPtrTy .longT = false ∧
    baseOf (.ptr .intT) ≠ none := by
  decide

/-- C8 (amended): for every pair of operand types t1, t2 of a binary
arithmetic or comparison operator in the bootstrap compiler, the common
type computed by `get_common_type(t1, t2)` is `pointer_to(t1->base)` when
t1 has a pointer/array base (t2's base is never consulted); otherwise
`long` when either operand's size is 8 — in particular a pointer-typed t2
yields `long`, since its size is 8 — and `int` when neither is;
`usual_arith_conv` then rewrites both operands with `ND_CAST` nodes to
that common type. -/
theorem c8_common_type_rules (ty1 ty2 : CType) :
    (∀ b, baseOf ty1 = some b → getCommonType ty1 ty2 = some (.ptr b)) ∧
    (baseOf ty1 = none → sizeOf ty1 = some 8 →
      getCommonType ty1 ty2 = some .longT) ∧
    (∀ s1, baseOf ty1 = none → sizeOf ty1 = some s1 → s1 ≠ 8 →
      sizeOf ty2 = some 8 → getCommonType ty1 ty2 = some .longT) ∧
    (∀ s1 s2, baseOf ty1 = none → sizeOf ty1 = some s1 → s1 ≠ 8 →
      sizeOf ty2 = some s2 → s2 ≠ 8 → getCommonType ty1 ty2 = some .intT) ∧
    (∀ (lhs rhs : TNode) (l2 r2 : TNode),
      usualArithConv lhs rhs = some (l2, r2) →
      ∃ ty, getCommonType (tyOf lhs) (tyOf rhs) = some ty ∧
        l2 = newCast lhs ty ∧ r2 = newCast rhs ty) := by
  refine ⟨?_, ?_, ?_, ?_, ?_⟩
  · intro b hb
    simp [getCommonType, hb]
  · intro hb hs
    simp [getCommonType, hb, hs]
  · intro s1 hb hs1 hne hs2
    simp [getCommonType, hb, hs1, hne, hs2]
  · intro s1 s2 hb hs1 hne1 hs2 hne2
    simp [getCommonType, hb, hs1, hne1, hs2, hne2]
  · intro lhs rhs l2 r2 h
    cases hty : getCommonType (tyOf lhs) (tyOf rhs) with
    | none => simp [usualArithConv, hty] at h
    | some ty =>
        simp [usualArithConv, hty] at h
        exact ⟨ty, rfl, h.1.symm, h.2.symm⟩

/-- Witness for C8: `char + long` gets common type `long`, and both
operands are wrapped in casts to it. -/
theorem c8_common_type_rules_witness :
    getCommonType .charT (.ptr .intT) = some .longT ∧
    getCommonType .charT .intT = some .intT ∧
    (∃ ty, getCommonType (tyOf (.atom .charT)) (tyOf (.atom .longT)) =
        some ty ∧
      newCast (.atom .charT) .longT = newCast (.atom .charT) ty ∧
      newCast (.atom .longT) .longT = newCast (.atom .longT) ty) :=
  ⟨(c8_common_type_rules .charT (.ptr .intT)).2.2.1 1 (by decide) (by decide)
      (by decide) (by decide),
   (c8_common_type_rules .charT .intT).2.2.2.1 1 4 (by decide) (by decide)
      (by decide) (by decide) (by decide),
   by
     obtain ⟨ty, hty, h1, h2⟩ :=
       (c8_common_type_rules .charT .longT).2.2.2.2 (.atom .charT)
         (.atom .longT) (newCast (.atom .charT) .longT)
         (newCast (.atom .longT) .longT) (by decide)
     exact ⟨ty, hty, by rw [h1], by rw [h2]⟩⟩

end TypeC

namespace Parse

/-- `align_to` to a multiple of `a*8`, divided by 8, is a multiple of
`a` — an aligned byte offset. -/
theorem alignTo_div8_mod (n a : Nat) : (alignTo n (a * 8) / 8) % a = 0 := by
  unfold alignTo
  have h : (n + a * 8 - 1) / (a * 8) * (a * 8) =
      (n + a * 8 - 1) / (a * 8) * a * 8 := by ring
  rw [h, Nat.mul_div_cancel _ (by norm_num)]
  exact Nat.mul_mod_left _ _

/-- After `align_to(bits, S*8)`, a bitfield of width `W ≤ S*8` no longer
crosses an `S`-byte word boundary. -/
theorem no_cross_after_align (bits W sz : Nat) (hW : 1 ≤ W)
    (hWsz : W ≤ sz * 8) (hsz : 1 ≤ sz) :
    crossesWord (alignTo bits (sz * 8)) W sz = false := by
  have hm : 0 < sz * 8 := by omega
  have h1 : alignTo bits (sz * 8) / (sz * 8) =
      (bits + sz * 8 - 1) / (sz * 8) := by
    unfold alignTo
    exact Nat.mul_div_cancel _ hm
  have h2 : (alignTo bits (sz * 8) + W - 1) / (sz * 8) =
      (bits + sz * 8 - 1) / (sz * 8) := by
    unfold alignTo
    have he : (bits + sz * 8 - 1) / (sz * 8) * (sz * 8) + W - 1 =
        (W - 1) + sz * 8 * ((bits + sz * 8 - 1) / (sz * 8)) := by
      have := Nat.mul_comm ((bits + sz * 8 - 1) / (sz * 8)) (sz * 8)
      omega
    rw [he, Nat.add_mul_div_left _ _ hm, Nat.div_eq_of_lt (by omega)]
    omega
  simp [crossesWord, h1, h2]

/-- The aligned `bits` value is a multiple of `S*8`. -/
theorem alignTo_mod (n m : Nat) : alignTo n m % m = 0 := by
  unfold alignTo
  exact Nat.mul_mod_left _ _

/-- The running-alignment accumulator of `struct_decl` is the fold of
`max` over the member alignments. -/
theorem structDeclAux_align_eq : ∀ (ms : List SMember) (bits al : Nat),
    (structDeclAux ms bits al).2.2 =
      ms.foldl (fun a m => max a m.align) al
  | [], _, _ => rfl
  | m :: rest, bits, al => by
      rcases hstep : structDeclStep bits m with ⟨pm, bits1⟩
      simp only [structDeclAux, hstep, List.foldl_cons]
      have hmax : (if al < m.align then m.align else al) = max al m.align := by
        split <;> omega
      rw [hmax]
      exact structDeclAux_align_eq rest bits1 (max al m.align)

/-- The `max` fold is at least its seed. -/
theorem foldl_max_ge_init : ∀ (ms : List SMember) (al : Nat),
    al ≤ ms.foldl (fun a m => max a m.align) al
  | [], _ => le_refl _
  | m :: rest, al =>
      le_trans (Nat.le_max_left al m.align)
        (foldl_max_ge_init rest (max al m.align))

/-- The `max` fold dominates every member alignment. -/
theorem foldl_max_ge_mem : ∀ (ms : List SMember) (al : Nat),
    ∀ m ∈ ms, m.align ≤ ms.foldl (fun a m => max a m.align) al
  | [], _, _, h => absurd h (List.not_mem_nil _)
  | m0 :: rest, al, m, h => by
      rcases List.mem_cons.mp h with rfl | hrest
      · exact le_trans (Nat.le_max_right al m.align)
          (foldl_max_ge_init rest (max al m.align))
      · exact foldl_max_ge_mem rest (max al m0.align) m hrest

/-- The `max` fold is its seed or some member's alignment. -/
theorem foldl_max_attained : ∀ (ms : List SMember) (al : Nat),
    ms.foldl (fun a m => max a m.align) al = al ∨
      ∃ m ∈ ms, ms.foldl (fun a m => max a m.align) al = m.align
  | [], _ => Or.inl rfl
  | m0 :: rest, al => by
      rcases foldl_max_attained rest (max al m0.align) with h | ⟨m, hm, he⟩
      · simp only [List.foldl_cons, h]
        rcases Nat.le_total al m0.align with hle | hle
        · exact Or.inr ⟨m0, List.mem_cons_self _ _, by omega⟩
        · exact Or.inl (by omega)
      · exact Or.inr ⟨m, List.mem_cons_of_mem _ hm, by
          simp only [List.foldl_cons]; exact he⟩

/-- C4: for every struct type built by the parser — a bitfield member of
width `W ≥ 1` in a base type of size `S` starts a new `S`-byte word exactly
when it would otherwise cross an `S`-byte boundary (and after the forced
alignment it no longer crosses), recording
`offset = align_down(bits/8, S)` and `bit_offset = bits mod (S*8)` of the
(possibly realigned) cursor; a non-bitfield member at bit cursor `B` is
placed at `align_to(B, align*8)`, a byte offset that is a multiple of its
alignment; the struct's alignment is the maximum member alignment; and the
struct's size is `align_to(final_bits, struct_align*8)/8`, a multiple of
the struct's alignment. -/
theorem c4_struct_layout :
    (∀ (bits W sz al : Nat), 1 ≤ W → W ≤ sz * 8 → 1 ≤ sz →
      (crossesWord bits W sz = false →
        structDeclStep bits ⟨sz, al, true, W⟩ =
          (⟨alignDown (bits / 8) sz, bits % (sz * 8)⟩, bits + W)) ∧
      (crossesWord bits W sz = true →
        structDeclStep bits ⟨sz, al, true, W⟩ =
          (⟨alignDown (alignTo bits (sz * 8) / 8) sz,
             alignTo bits (sz * 8) % (sz * 8)⟩,
           alignTo bits (sz * 8) + W) ∧
        crossesWord (alignTo bits (sz * 8)) W sz = false ∧
        alignTo bits (sz * 8) % (sz * 8) = 0)) ∧
    (∀ (bits size al w : Nat),
      structDeclStep bits ⟨size, al, false, w⟩ =
        (⟨alignTo bits (al * 8) / 8, 0⟩, alignTo bits (al * 8) + size * 8) ∧
      (alignTo bits (al * 8) / 8) % al = 0) ∧
    (∀ members : List SMember, members ≠ [] →
      (∀ m ∈ members, 1 ≤ m.align) →
      (∀ m ∈ members, m.align ≤ (structDecl members).2.2) ∧
      ∃ m ∈ members, (structDecl members).2.2 = m.align) ∧
    (∀ members : List SMember,
      (structDecl members).2.1 =
        alignTo (structDeclAux members 0 structTypeInitAlign).2.1
          ((structDecl members).2.2 * 8) / 8 ∧
      (structDecl members).2.1 % (structDecl members).2.2 = 0) := by
  refine ⟨?_, ?_, ?_, ?_⟩
  · intro bits W sz al hW hWsz hsz
    have hW0 : ¬(True ∧ W = 0) := by omega
    constructor
    · intro hcross
      simp [structDeclStep, hcross, hW0]
    · intro hcross
      refine ⟨by simp [structDeclStep, hcross, hW0], ?_, alignTo_mod _ _⟩
      exact no_cross_after_align bits W sz hW hWsz hsz
  · intro bits size al w
    constructor
    · simp [structDeclStep]
    · exact alignTo_div8_mod bits al
  · intro members hne hge
    have halign : (structDecl members).2.2 =
        members.foldl (fun a m => max a m.align) structTypeInitAlign := by
      unfold structDecl
      rcases haux : structDeclAux members 0 structTypeInitAlign with ⟨ps, bits, al⟩
      have := structDeclAux_align_eq members 0 structTypeInitAlign
      rw [haux] at this
      simpa using this
    constructor
    · intro m hm
      rw [halign]
      exact foldl_max_ge_mem members structTypeInitAlign m hm
    · rcases foldl_max_attained members structTypeInitAlign with h | ⟨m, hm, he⟩
      · rcases members with _ | ⟨m0, rest⟩
        · exact absurd rfl hne
        · refine ⟨m0, List.mem_cons_self _ _, ?_⟩
          have h1 := hge m0 (List.mem_cons_self _ _)
          have h2 := foldl_max_ge_mem (m0 :: rest) structTypeInitAlign m0
            (List.mem_cons_self _ _)
          rw [halign]
          have hs1 : structTypeInitAlign = 1 := rfl
          omega
      · exact ⟨m, hm, by rw [halign]; exact he⟩
  · intro members
    unfold structDecl
    rcases haux : structDeclAux members 0 structTypeInitAlign with ⟨ps, bits, al⟩
    refine ⟨rfl, ?_⟩
    exact alignTo_div8_mod bits al

/-- Witness for C4 on `struct { int a : 3; int b : 5; char c; }`: `b`
shares `a`'s word at bit offset 3, `c` lands at byte offset 1, and the
struct's alignment 4 is attained by a member. -/
theorem c4_struct_layout_witness :
    structDeclStep 3 ⟨4, 4, true, 5⟩ = (⟨0, 3⟩, 8) ∧
    structDeclStep 8 ⟨1, 1, false, 0⟩ = (⟨1, 0⟩, 16) ∧
    ∃ m ∈ ([⟨4, 4, true, 3⟩, ⟨4, 4, true, 5⟩, ⟨1, 1, false, 0⟩] :
        List SMember),
      (structDecl [⟨4, 4, true, 3⟩, ⟨4, 4, true, 5⟩, ⟨1, 1, false, 0⟩]).2.2 =
        m.align := by
  refine ⟨?_, ?_, ?_⟩
  · have h := (c4_struct_layout.1 3 5 4 4 (by decide) (by decide)
      (by decide)).1 (by decide)
    rw [h]
    decide
  · have h := (c4_struct_layout.2.1 8 1 1 0).1
    rw [h]
    decide
  · exact (c4_struct_layout.2.2.1
      [⟨4, 4, true, 3⟩, ⟨4, 4, true, 5⟩, ⟨1, 1, false, 0⟩]
      (by decide) (by decide)).2

end Parse
